import Mathlib

/-!
# Verification of the organization-management data-access layer

A shallow embedding of the generic data-access core of the
organization-management backend service:

* `models/base_model.py` — `GenericBaseModel` (audit columns, id-field
  convention, nullability metadata);
* `models/oms_models.py` — the `Organizations` and `Users` entity models and
  their ordering classes;
* `dao/base_dao.py` — `BaseDao` (`create`, `update`, `soft_delete`, `list`
  and the nullability checks);
* `db/query_parser.py` — `QueryParser` (the `field__op` filter interpreter);
* `utils/utils.py` — `fetch_row_based_on_column` (the paged lookup helper).

Python values flowing through the DAO are embedded as `Value`; Python `None`
is `Option.none`.  Keyword-argument dictionaries are association lists with
distinct keys (`Kwargs`).  The backing store is a list of rows; a session's
`commit` is modelled as returning the new store, and a raised exception is
`Except.error`, which leaves the caller's store untouched.  The backing
store's own NOT NULL enforcement (surfacing in Python as an
`IntegrityError` at commit time) is modelled by `rowIntegrity`; uniqueness
constraints are not modelled because no verified property depends on them.
-/

namespace OMS

/-- A Python value as it appears in DAO keyword arguments and rows:
strings, integers, booleans, datetimes (abstracted to a totally ordered
tick count) and lists (used by `__in` filters). -/
inductive Value where
  | str (s : String)
  | int (n : Int)
  | bool (b : Bool)
  | time (t : Nat)
  | vlist (vs : List Value)
deriving Repr

mutual

/-- Structural equality on embedded Python values. -/
def Value.beq : Value → Value → Bool
  | .str a, .str b => a == b
  | .int a, .int b => a == b
  | .bool a, .bool b => a == b
  | .time a, .time b => a == b
  | .vlist a, .vlist b => Value.beqList a b
  | _, _ => false

/-- Structural equality on lists of embedded Python values. -/
def Value.beqList : List Value → List Value → Bool
  | [], [] => true
  | x :: xs, y :: ys => Value.beq x y && Value.beqList xs ys
  | _, _ => false

end

instance : BEq Value := ⟨Value.beq⟩

/-- Python truthiness of an optional value (`None` and empty/zero values are
falsy), as used by the `if not id:` guards in `BaseDao.soft_delete`. -/
def pyTruthy : Option Value → Bool
  | none => false
  | some (.str s) => !s.isEmpty
  | some (.int n) => n != 0
  | some (.bool b) => b
  | some (.time _) => true
  | some (.vlist vs) => !vs.isEmpty

/-- One SQLAlchemy column as declared on a model: its name, whether it is
nullable, and its Python-side default value if one was declared.
(`not column.default` in Python is true exactly when no default object was
attached, so "has a default" is `default?.isSome`.) -/
structure Column where
  name : String
  nullable : Bool
  default? : Option Value
deriving Repr

/-- A declarative model class: its class name, its table columns, and the
non-column class attributes (the helper methods `get_id_field`,
`model_to_dict`, `to_dict` inherited from `GenericBaseModel`), which
`getattr` resolves just like columns. -/
structure ModelClass where
  name : String
  columns : List Column
  extraAttrs : List String
deriving Repr

/-- `str.lower()`, character by character. -/
def lowerString (s : String) : String :=
  String.mk (s.data.map Char.toLower)

/-- `GenericBaseModel.get_id_field`: the id field name is the class name
with `_` inserted before each non-leading uppercase letter
(`re.sub(r"(?<!^)(?=[A-Z])", "_", cls.__name__)`), lowercased, plus `_id`. -/
def getIdField (m : ModelClass) : String :=
  lowerString (String.mk (m.name.data.take 1 ++
    (m.name.data.drop 1).flatMap (fun c => if c.isUpper then ['_', c] else [c])))
  ++ "_id"

/-- The audit columns declared on `GenericBaseModel`: all non-nullable;
only `is_deleted` carries a default (`False`). -/
def auditColumns : List Column :=
  [⟨"created_at", false, none⟩,
   ⟨"created_by", false, none⟩,
   ⟨"updated_at", false, none⟩,
   ⟨"updated_by", false, none⟩,
   ⟨"is_deleted", false, some (.bool false)⟩]

/-- The non-column class attributes inherited from `GenericBaseModel`. -/
def baseModelAttrs : List String :=
  ["get_id_field", "model_to_dict", "to_dict"]

/-- The `Organizations` model: three mapped string columns (all
non-Optional, hence non-nullable, with no defaults) plus the audit
columns. -/
def Organizations : ModelClass :=
  { name := "Organizations"
    columns := [⟨"organizations_id", false, none⟩,
                ⟨"organization_name", false, none⟩,
                ⟨"created_by_password", false, none⟩] ++ auditColumns
    extraAttrs := baseModelAttrs }

/-- The `Users` model: four mapped string columns plus the audit columns. -/
def Users : ModelClass :=
  { name := "Users"
    columns := [⟨"users_id", false, none⟩,
                ⟨"user_email", false, none⟩,
                ⟨"user_password", false, none⟩,
                ⟨"user_type", false, none⟩] ++ auditColumns
    extraAttrs := baseModelAttrs }

/-- `BaseDao.__init__`'s extraction of the non-nullable columns:
`{column.name for column in columns if not column.nullable and not column.default}`.
Columns with a default (such as `is_deleted`) are excluded. -/
def nonNullableColumns (m : ModelClass) : List String :=
  (m.columns.filter (fun c => !c.nullable && c.default?.isNone)).map (·.name)

/-- A Python keyword-argument dictionary: an association list from field
names to optional values (`none` embeds an explicit `None`).  Dictionaries
have distinct keys; theorems that need this carry a `Nodup` hypothesis. -/
abbrev Kwargs := List (String × Option Value)

/-- Dictionary membership (`field in kwargs`). -/
def kwargsHasKey : Kwargs → String → Bool
  | [], _ => false
  | p :: rest, k => p.1 == k || kwargsHasKey rest k

/-- `kwargs.get(k, None)`: the value at the first occurrence of `k`, with
both "absent" and "present as None" collapsing to `none`. -/
def kwargsGet : Kwargs → String → Option Value
  | [], _ => none
  | p :: rest, k => if p.1 == k then p.2 else kwargsGet rest k

/-- Dictionary assignment `kwargs[k] = v`: overwrite in place when the key
exists, append otherwise. -/
def kwargsSet (l : Kwargs) (k : String) (v : Option Value) : Kwargs :=
  if kwargsHasKey l k then l.map (fun p => if p.1 == k then (k, v) else p)
  else l ++ [(k, v)]

/-- A persisted record: one optional value per declared column (`none` is
SQL NULL).  Well-formed rows carry exactly the model's columns, in order. -/
abbrev Row := List (String × Option Value)

/-- Attribute read on a record (`getattr(instance, field)`). -/
def rowGet (r : Row) (f : String) : Option Value :=
  kwargsGet r f

/-- Attribute write on a record (`setattr(instance, field, value)`); only
declared columns are persisted, so writes to other names are dropped. -/
def rowSet (r : Row) (f : String) (v : Option Value) : Row :=
  r.map (fun p => if p.1 == f then (f, v) else p)

/-- A row has the model's column skeleton (same names, same order). -/
def RowWF (m : ModelClass) (r : Row) : Prop :=
  r.map Prod.fst = m.columns.map Column.name

/-- The backing store's NOT NULL check, applied when a unit of work
commits: every non-nullable column holds a value. -/
def rowIntegrity (m : ModelClass) (r : Row) : Bool :=
  m.columns.all (fun c => c.nullable || (rowGet r c.name).isSome)

/-- `self._model_class(**kwargs)` followed by the flush: each column takes
the supplied value when its key is present (even if the value is `None`),
and otherwise its declared default (or NULL without one). -/
def mkRow (m : ModelClass) (kwargs : Kwargs) : Row :=
  m.columns.map (fun c =>
    (c.name, if kwargsHasKey kwargs c.name then kwargsGet kwargs c.name else c.default?))

/-- The errors the DAO layer can surface.  The first five embed the custom
exception taxonomy of `_exceptions.py` (with the model/field context they
carry); the rest embed Python- or store-level exceptions: `ValueError`
guards in `soft_delete`/`list`, `TypeError` from the declarative
constructor on an unknown keyword, `AttributeError` from `getattr` misses
and from calling comparison helpers on non-column attributes,
`IntegrityError` from the store's NOT NULL enforcement at commit, and
`MultipleResultsFound` from `one_or_none`. -/
inductive DaoError where
  | notNullable (model field : String)
  | notFound (model : String)
  | invalidFilterField (model field : String)
  | invalidFilterMethod (model field method : String)
  | dataError (model field : String)
  | valueError (msg : String)
  | typeError
  | attributeError
  | integrityError
  | multipleResults
deriving Repr, DecidableEq

/-- `BaseDao._verify_null_kwargs`: iterate the supplied fields and raise
`NotNullable` on the first one that is a non-nullable (default-free)
column supplied as `None`. -/
def verify_null_kwargs (m : ModelClass) : Kwargs → Except DaoError Unit
  | [] => .ok ()
  | (f, v) :: rest =>
    if (nonNullableColumns m).contains f && v.isNone then
      .error (.notNullable m.name f)
    else verify_null_kwargs m rest

/-- Iteration of `_verify_all_non_nullable_fields_defined` over the
non-nullable column set. -/
def verifyAllDefinedAux (mname : String) (kwargs : Kwargs) : List String → Except DaoError Unit
  | [] => .ok ()
  | f :: rest =>
    if kwargsHasKey kwargs f then verifyAllDefinedAux mname kwargs rest
    else .error (.notNullable mname f)

/-- `BaseDao._verify_all_non_nullable_fields_defined`: raise `NotNullable`
on the first non-nullable (default-free) column missing from the supplied
fields. -/
def verify_all_non_nullable_fields_defined (m : ModelClass) (kwargs : Kwargs) :
    Except DaoError Unit :=
  verifyAllDefinedAux m.name kwargs (nonNullableColumns m)

/-- SQL equality between two optional values: NULL compares false against
everything (`column == None` built by the filter never matches rows). -/
def sqlEqOpt : Option Value → Option Value → Bool
  | some a, some b => a == b
  | _, _ => false

/-- `BaseDao._get` with `one_or_none`: the rows whose id column equals
`id`; none → absent, exactly one → found, several → `MultipleResultsFound`. -/
def getOne (m : ModelClass) (store : List Row) (id : Option Value) :
    Except DaoError (Option Row) :=
  match store.filter (fun r => sqlEqOpt (rowGet r (getIdField m)) id) with
  | [] => .ok none
  | [r] => .ok (some r)
  | _ => .error .multipleResults

/-- `BaseDao.get`: fetch by id ignoring soft-delete status; absence is not
an error. -/
def get (m : ModelClass) (store : List Row) (id : Option Value) :
    Except DaoError (Option Row) :=
  getOne m store id

/-- `BaseDao.create`: overwrite `updated_by`/`updated_at` with
`kwargs.get("created_by")`/`kwargs.get("created_at")`, run the two
nullability checks, construct the instance (a `TypeError` on unknown
keywords), and commit (the store enforcing NOT NULL). -/
def create (m : ModelClass) (store : List Row) (kwargs : Kwargs) :
    Except DaoError (List Row) :=
  let kwargs1 := kwargsSet kwargs "updated_by" (kwargsGet kwargs "created_by")
  let kwargs2 := kwargsSet kwargs1 "updated_at" (kwargsGet kwargs1 "created_at")
  match verify_null_kwargs m kwargs2 with
  | .error e => .error e
  | .ok _ =>
    match verify_all_non_nullable_fields_defined m kwargs2 with
    | .error e => .error e
    | .ok _ =>
      if kwargs2.all (fun p => m.columns.any (fun c => c.name == p.1)) then
        let inst := mkRow m kwargs2
        if rowIntegrity m inst then .ok (store ++ [inst])
        else .error .integrityError
      else .error .typeError

/-- The `setattr` loop of `BaseDao.update`: each supplied column field is
overwritten on the instance (non-column names are not persisted). -/
def applyKwargsToRow (r : Row) (kwargs : Kwargs) : Row :=
  r.map (fun p => if kwargsHasKey kwargs p.1 then (p.1, kwargsGet kwargs p.1) else p)

/-- `BaseDao.update`: no-op on an empty mapping; `NotFound` when the id
matches nothing; `NotNullable` on an explicit null for a non-nullable
(default-free) column; otherwise apply the fields, stamp `updated_at` with
the current UTC time, and commit. -/
def update (m : ModelClass) (store : List Row) (id : Option Value) (now : Nat)
    (kwargs : Kwargs) : Except DaoError (List Row) :=
  if kwargs.isEmpty then .ok store
  else
    match getOne m store id with
    | .error e => .error e
    | .ok none => .error (.notFound m.name)
    | .ok (some inst) =>
      match verify_null_kwargs m kwargs with
      | .error e => .error e
      | .ok _ =>
        let inst2 := rowSet (applyKwargsToRow inst kwargs) "updated_at" (some (.time now))
        if rowIntegrity m inst2 then
          .ok (store.map (fun r =>
            if sqlEqOpt (rowGet r (getIdField m)) id then inst2 else r))
        else .error .integrityError

/-- `BaseDao.soft_delete`: `ValueError` when `id`, `updated_by` or
`updated_at` is falsy; `NotFound` when the id matches nothing; otherwise
set `updated_by`, `updated_at` and `is_deleted := True` and commit. -/
def soft_delete (m : ModelClass) (store : List Row)
    (id updated_by updated_at : Option Value) : Except DaoError (List Row) :=
  if !pyTruthy id then .error (.valueError "id is undefined")
  else if !pyTruthy updated_by then .error (.valueError "updated_by is undefined")
  else if !pyTruthy updated_at then .error (.valueError "updated_at is undefined")
  else
    match getOne m store id with
    | .error e => .error e
    | .ok none => .error (.notFound m.name)
    | .ok (some inst) =>
      let inst2 := rowSet (rowSet (rowSet inst "updated_by" updated_by)
        "updated_at" updated_at) "is_deleted" (some (.bool true))
      if rowIntegrity m inst2 then
        .ok (store.map (fun r =>
          if sqlEqOpt (rowGet r (getIdField m)) id then inst2 else r))
      else .error .integrityError

/-! ## The filter-expression interpreter (`db/query_parser.py`) -/

/-- `field_string.split('__')` specialised to the two-underscore
separator: scan left to right, cutting at each non-overlapping `__`. -/
def splitDunderAux : List Char → List Char → List (List Char)
  | '_' :: '_' :: cs, acc => acc.reverse :: splitDunderAux cs []
  | c :: cs, acc => splitDunderAux cs (c :: acc)
  | [], acc => [acc.reverse]

/-- `field_string.split('__')`. -/
def splitDunder (s : String) : List String :=
  (splitDunderAux s.data []).map String.mk

/-- What `getattr(model_class, name, None)` resolves `name` to: a mapped
column, a non-column class attribute (one of the base-class helper
methods), or nothing. -/
inductive AttrKind where
  | column
  | methodAttr
deriving Repr, DecidableEq

/-- Attribute resolution on the model class; columns and inherited helper
methods are both truthy attributes. -/
def resolveAttr (m : ModelClass) (name : String) : Option AttrKind :=
  if m.columns.any (fun c => c.name == name) then some .column
  else if m.extraAttrs.contains name then some .methodAttr
  else none

/-- The closed operator set accepted by `QueryParser.construct_queryset`. -/
def validFilterMethods : List String :=
  ["in", "contains", "icontains", "gt", "gte", "lt", "lte"]

/-- Lexicographic order on character lists (SQL/Python string ordering). -/
def charListLt : List Char → List Char → Bool
  | [], [] => false
  | [], _ :: _ => true
  | _ :: _, [] => false
  | a :: as, b :: bs => a < b || (a == b && charListLt as bs)

/-- SQL `<` between two values of the same type; comparisons across types
never match a row (the store's own type errors are not modelled). -/
def valLt : Value → Value → Bool
  | .str a, .str b => charListLt a.data b.data
  | .int a, .int b => a < b
  | .time a, .time b => a < b
  | .bool a, .bool b => !a && b
  | _, _ => false

/-- SQL `<=` between two values of the same type. -/
def valLe (a b : Value) : Bool :=
  valLt a b || Value.beq a b

/-- Is `needle` a prefix of `hay`? -/
def charsPrefixOf : List Char → List Char → Bool
  | [], _ => true
  | _ :: _, [] => false
  | a :: as, b :: bs => a == b && charsPrefixOf as bs

/-- Is `needle` a contiguous substring of `hay` (SQL `LIKE '%needle%'`)? -/
def charsInfixOf : List Char → List Char → Bool
  | needle, [] => charsPrefixOf needle []
  | needle, c :: rest => charsPrefixOf needle (c :: rest) || charsInfixOf needle rest

mutual

/-- Python `str(value)`, as interpolated by the `icontains` branch's
f-string. -/
def pyStr : Value → String
  | .str s => s
  | .int n => toString n
  | .bool b => if b then "True" else "False"
  | .time t => toString t
  | .vlist vs => "[" ++ pyStrList vs ++ "]"

/-- Python `str` of a list's elements, comma separated. -/
def pyStrList : List Value → String
  | [] => ""
  | [v] => pyStr v
  | v :: rest => pyStr v ++ ", " ++ pyStrList rest

end

/-- The iterable view `in_` takes of its argument: lists iterate their
elements, strings their characters; other values are not iterable. -/
def valueIter : Value → Option (List Value)
  | .vlist vs => some vs
  | .str s => some (s.data.map (fun c => Value.str (String.mk [c])))
  | _ => none

/-- Applying a comparison operator to a resolved attribute: on a column it
yields the row criterion the queryset is filtered by; on a plain method
attribute the Python-level operation fails before any query runs. -/
def filterCompare (kind : AttrKind) (fname : String)
    (cmp : Option Value → Bool) (onMethod : DaoError) : Except DaoError (Row → Bool) :=
  match kind with
  | .methodAttr => .error onMethod
  | .column => .ok (fun r => cmp (rowGet r fname))

/-- `QueryParser.__init__` followed by `construct_queryset`, up to the final
`queryset.filter(...)`: split the raw name on `__`, resolve the leading
segment via `getattr` (raising `InvalidFilterField` when it resolves to
nothing), then dispatch on the operator segment, raising
`InvalidFilterMethod` outside the fixed operator set; a successful parse
denotes the row criterion the branch passes to `filter`.  A bare name
compares the attribute for equality — on a non-column attribute
`field == value` is plain `False`, which filters out every row rather than
raising. -/
def queryParserCriterion (m : ModelClass) (field_string : String) (value : Value) :
    Except DaoError (Row → Bool) :=
  let args := splitDunder field_string
  let isMethodLookup := decide (args.length > 1)
  let fname := args.headD ""
  match resolveAttr m fname with
  | none => .error (.invalidFilterField m.name fname)
  | some kind =>
    if !isMethodLookup then
      match kind with
      | .column => .ok (fun r => sqlEqOpt (rowGet r fname) (some value))
      | .methodAttr => .ok (fun _ => false)
    else
      let method := args.getD 1 ""
      if method == "in" then
        match kind with
        | .methodAttr => .error .attributeError
        | .column =>
          match valueIter value with
          | some vs => .ok (fun r =>
              match rowGet r fname with
              | some x => vs.contains x
              | none => false)
          | none => .error .typeError
      else if method == "contains" then
        filterCompare kind fname (fun x =>
          match x, value with
          | some (.str s), .str sub => charsInfixOf sub.data s.data
          | _, _ => false) .attributeError
      else if method == "icontains" then
        filterCompare kind fname (fun x =>
          match x with
          | some (.str s) => charsInfixOf (lowerString (pyStr value)).data (lowerString s).data
          | _ => false) .attributeError
      else if method == "gt" then
        filterCompare kind fname (fun x =>
          match x with
          | some xv => valLt value xv
          | none => false) .typeError
      else if method == "gte" then
        filterCompare kind fname (fun x =>
          match x with
          | some xv => valLe value xv
          | none => false) .typeError
      else if method == "lt" then
        filterCompare kind fname (fun x =>
          match x with
          | some xv => valLt xv value
          | none => false) .typeError
      else if method == "lte" then
        filterCompare kind fname (fun x =>
          match x with
          | some xv => valLe xv value
          | none => false) .typeError
      else .error (.invalidFilterMethod m.name fname method)

/-- `QueryParser(...).construct_queryset()`: parse the filter field and
apply the denoted criterion to the queryset. -/
def queryParserFilter (m : ModelClass) (queryset : List Row) (field_string : String)
    (value : Value) : Except DaoError (List Row) :=
  match queryParserCriterion m field_string value with
  | .error e => .error e
  | .ok p => .ok (queryset.filter p)

/-! ## Listing (`BaseDao.list`) and the paged lookup helper -/

/-- The filter loop of `BaseDao.list`: each (field, value) pair with a
non-null value narrows the queryset through `QueryParser`; null values are
skipped. -/
def applyFilterFields (m : ModelClass) (q : List Row) : Kwargs → Except DaoError (List Row)
  | [] => .ok q
  | (_, none) :: rest => applyFilterFields m q rest
  | (f, some v) :: rest =>
    match queryParserFilter m q f v with
    | .error e => .error e
    | .ok q2 => applyFilterFields m q2 rest

/-- An ordering attribute: the column it sorts by and its direction. -/
structure OrderSpec where
  field : String
  asc : Bool
deriving Repr, DecidableEq

/-- `getattr(model_ordering_class, order_by)` for the two ordering classes
of `oms_models.py`, both of which expose exactly `CREATED_AT_ASC` and
`CREATED_AT_DESC` over their model's `created_at` column. -/
def orderingAttr : String → Option OrderSpec
  | "CREATED_AT_ASC" => some ⟨"created_at", true⟩
  | "CREATED_AT_DESC" => some ⟨"created_at", false⟩
  | _ => none

/-- Non-strict value order lifted to nullable columns; the store sorts
NULLs after values in ascending order. -/
def optValLe : Option Value → Option Value → Bool
  | none, none => true
  | none, some _ => false
  | some _, none => true
  | some a, some b => valLe a b

/-- The row comparison an `ORDER BY` attribute induces. -/
def orderLe (spec : OrderSpec) (a b : Row) : Bool :=
  if spec.asc then optValLe (rowGet a spec.field) (rowGet b spec.field)
  else optValLe (rowGet b spec.field) (rowGet a spec.field)

/-- Insert into a sorted list (auxiliary to `sortLe`). -/
def insertLe (le : Row → Row → Bool) (x : Row) : List Row → List Row
  | [] => [x]
  | y :: ys => if le x y then x :: y :: ys else y :: insertLe le x ys

/-- The deterministic sort modelling the store's `ORDER BY`. -/
def sortLe (le : Row → Row → Bool) : List Row → List Row
  | [] => []
  | x :: xs => insertLe le x (sortLe le xs)

/-- The (items, count) pair `BaseDao.list` returns. -/
structure BaseDaoListResponse where
  items : List Row
  count : Nat
deriving Repr

/-- The first two narrowing steps of `BaseDao.list`'s queryset: drop
soft-deleted rows unless `include_deleted`, then restrict to `pk_ids` when
that list is non-empty. -/
def visibleRows (m : ModelClass) (store : List Row) (pk_ids : List Value)
    (include_deleted : Bool) : List Row :=
  let q1 := if include_deleted then store
    else store.filter (fun r => sqlEqOpt (rowGet r "is_deleted") (some (.bool false)))
  if pk_ids.isEmpty then q1
  else q1.filter (fun r =>
    match rowGet r (getIdField m) with
    | some v => pk_ids.contains v
    | none => false)

/-- The conjunction of the criteria of all non-null filter fields: what
"the record matches the filter set" means (fields whose parse fails match
nothing). -/
def matchesFilterFields (m : ModelClass) (ff : Kwargs) (r : Row) : Bool :=
  ff.all (fun p =>
    match p.2 with
    | none => true
    | some v =>
      match queryParserCriterion m p.1 v with
      | .ok pred => pred r
      | .error _ => false)

/-- `BaseDao.list`: validate `page`/`size`, narrow to the visible rows,
apply the non-null filter fields through `QueryParser`, count the filtered
set, then order and paginate (`limit size`, `offset page*size`). -/
def list (m : ModelClass) (store : List Row) (page : Int) (size : Int)
    (order_by : String) (pk_ids : List Value) (include_deleted : Bool)
    (filter_fields : Kwargs) : Except DaoError BaseDaoListResponse :=
  if page < 0 then .error (.valueError "page must be >= 0")
  else if size < 1 || size > 100 then .error (.valueError "size must be between 1 and 100")
  else
    match applyFilterFields m (visibleRows m store pk_ids include_deleted) filter_fields with
    | .error e => .error e
    | .ok q3 =>
      let count := q3.length
      match orderingAttr order_by with
      | none => .error .attributeError
      | some spec =>
        let sorted := sortLe (orderLe spec) q3
        let items := (sorted.drop (page * size).toNat).take size.toNat
        .ok ⟨items, count⟩

/-- The `while max_pages > 0` loop of `fetch_row_based_on_column`: list one
page with the single column filter at the store's default page size; on a
non-zero count collect that page's items and stop, otherwise advance the
page and spend one unit of budget. -/
def fetchLoop (m : ModelClass) (store : List Row) (order_by : String)
    (column_name : String) (v : Option Value) (records : List Row) :
    Int → Nat → Except DaoError (List Row)
  | _, 0 => .ok records
  | p, n + 1 =>
    match list m store p 100 order_by [] false [(column_name, v)] with
    | .error e => .error e
    | .ok resp =>
      if resp.count > 0 then .ok (records ++ resp.items)
      else fetchLoop m store order_by column_name v records (p + 1) n

/-- `utils.fetch_row_based_on_column`: despite accepting `page_offset`,
`max_pages` and `order_by` parameters, the body immediately rebinds all
three to the constants `0`, `10` and `"CREATED_AT_ASC"` before the loop. -/
def fetch_row_based_on_column (m : ModelClass) (store : List Row)
    (column_name : String) (column_type_filter_value : Option Value)
    (page_offset : Int := 0) (max_pages : Int := 10)
    (order_by : String := "CREATED_AT_ASC") : Except DaoError (List Row) :=
  let max_pages : Int := 10
  let page_offset : Int := 0
  let order_by : String := "CREATED_AT_ASC"
  fetchLoop m store order_by column_name column_type_filter_value []
    page_offset max_pages.toNat

/-! ## Concrete example data -/

/-- A create payload for `Organizations` supplying every column except
`updated_by`/`updated_at` (which `create` backfills) and `is_deleted`
(which defaults). -/
def orgCreateKwargs : Kwargs :=
  [("organizations_id", some (.str "o1")),
   ("organization_name", some (.str "Acme")),
   ("created_by_password", some (.str "hash")),
   ("created_at", some (.time 5)),
   ("created_by", some (.str "a@x.com"))]

/-- The row `create` persists from `orgCreateKwargs`. -/
def orgRow1 : Row :=
  [("organizations_id", some (.str "o1")),
   ("organization_name", some (.str "Acme")),
   ("created_by_password", some (.str "hash")),
   ("created_at", some (.time 5)),
   ("created_by", some (.str "a@x.com")),
   ("updated_at", some (.time 5)),
   ("updated_by", some (.str "a@x.com")),
   ("is_deleted", some (.bool false))]

/-- A one-record `Organizations` store. -/
def orgStore1 : List Row := [orgRow1]

/-- `orgRow1` after `soft_delete("o1", "b@x.com", time 7)`. -/
def orgRow1Deleted : Row :=
  [("organizations_id", some (.str "o1")),
   ("organization_name", some (.str "Acme")),
   ("created_by_password", some (.str "hash")),
   ("created_at", some (.time 5)),
   ("created_by", some (.str "a@x.com")),
   ("updated_at", some (.time 7)),
   ("updated_by", some (.str "b@x.com")),
   ("is_deleted", some (.bool true))]

/-- The one-record store after the soft delete. -/
def orgStore1Deleted : List Row := [orgRow1Deleted]

/-! ## Lemmas: value equality -/

mutual

theorem Value.eq_of_beq : ∀ {a b : Value}, Value.beq a b = true → a = b
  | .str _, .str _, h => by
    simp only [Value.beq, beq_iff_eq] at h; rw [h]
  | .int _, .int _, h => by
    simp only [Value.beq, beq_iff_eq] at h; rw [h]
  | .bool _, .bool _, h => by
    simp only [Value.beq, beq_iff_eq] at h; rw [h]
  | .time _, .time _, h => by
    simp only [Value.beq, beq_iff_eq] at h; rw [h]
  | .vlist a, .vlist b, h => by
    rw [Value.eqList_of_beqList (a := a) (b := b) h]

theorem Value.eqList_of_beqList : ∀ {a b : List Value}, Value.beqList a b = true → a = b
  | [], [], _ => rfl
  | x :: xs, y :: ys, h => by
    simp only [Value.beqList, Bool.and_eq_true] at h
    rw [Value.eq_of_beq h.1, Value.eqList_of_beqList h.2]

end

mutual

theorem Value.beq_refl : ∀ a : Value, Value.beq a a = true
  | .str _ => by simp [Value.beq]
  | .int _ => by simp [Value.beq]
  | .bool _ => by simp [Value.beq]
  | .time _ => by simp [Value.beq]
  | .vlist a => Value.beqList_refl a

theorem Value.beqList_refl : ∀ a : List Value, Value.beqList a a = true
  | [] => rfl
  | x :: xs => by
    simp only [Value.beqList, Bool.and_eq_true]
    exact ⟨Value.beq_refl x, Value.beqList_refl xs⟩

end

theorem Value.beq_iff_eq {a b : Value} : (a == b) = true ↔ a = b :=
  ⟨Value.eq_of_beq, fun h => h ▸ Value.beq_refl a⟩

/-! ## Lemmas: dictionaries -/

theorem kwargsHasKey_append (l₁ l₂ : Kwargs) (f : String) :
    kwargsHasKey (l₁ ++ l₂) f = (kwargsHasKey l₁ f || kwargsHasKey l₂ f) := by
  induction l₁ with
  | nil => simp [kwargsHasKey]
  | cons p rest ih => simp [kwargsHasKey, ih, Bool.or_assoc]

theorem kwargsGet_append (l₁ l₂ : Kwargs) (f : String) :
    kwargsGet (l₁ ++ l₂) f =
      (if kwargsHasKey l₁ f then kwargsGet l₁ f else kwargsGet l₂ f) := by
  induction l₁ with
  | nil => simp [kwargsHasKey, kwargsGet]
  | cons p rest ih =>
    simp only [List.cons_append, kwargsGet, kwargsHasKey]
    by_cases hp : (p.1 == f) = true
    · simp [hp]
    · simp [hp, ih]

theorem keys_map_replace (l : Kwargs) (k : String) (v : Option Value) :
    (l.map (fun p => if p.1 == k then (k, v) else p)).map Prod.fst = l.map Prod.fst := by
  induction l with
  | nil => rfl
  | cons p rest ih =>
    simp only [List.map_cons]
    by_cases hp : (p.1 == k) = true
    · have hpk : p.1 = k := by simpa using hp
      rw [if_pos hp, ih, hpk]
    · rw [if_neg hp, ih]

theorem kwargsGet_map_replace_self (l : Kwargs) (k : String) (v : Option Value)
    (h : kwargsHasKey l k = true) :
    kwargsGet (l.map (fun p => if p.1 == k then (k, v) else p)) k = v := by
  induction l with
  | nil => simp [kwargsHasKey] at h
  | cons p rest ih =>
    simp only [kwargsHasKey, Bool.or_eq_true] at h
    simp only [List.map_cons]
    by_cases hp : (p.1 == k) = true
    · rw [if_pos hp]
      simp [kwargsGet]
    · rw [if_neg hp]
      simp only [kwargsGet]
      rw [if_neg hp]
      exact ih (h.resolve_left (by simpa using hp))

theorem kwargsGet_map_replace_ne (l : Kwargs) (k : String) (v : Option Value)
    (f : String) (hne : f ≠ k) :
    kwargsGet (l.map (fun p => if p.1 == k then (k, v) else p)) f = kwargsGet l f := by
  induction l with
  | nil => rfl
  | cons p rest ih =>
    simp only [List.map_cons]
    by_cases hp : (p.1 == k) = true
    · have hpk : p.1 = k := by simpa using hp
      have h1 : ¬((k, v).1 == f) = true := by
        simp only [beq_iff_eq]; exact fun hh => hne (hh ▸ rfl)
      have h2 : ¬(p.1 == f) = true := by
        simp only [beq_iff_eq, hpk]; exact fun hh => hne (hh ▸ rfl)
      rw [if_pos hp]
      simp only [kwargsGet]
      rw [if_neg h1, if_neg h2, ih]
    · rw [if_neg hp]
      simp only [kwargsGet]
      by_cases hf : (p.1 == f) = true
      · rw [if_pos hf, if_pos hf]
      · rw [if_neg hf, if_neg hf, ih]

theorem kwargsGet_eq_none_of_not_hasKey (l : Kwargs) (f : String)
    (h : kwargsHasKey l f = false) : kwargsGet l f = none := by
  induction l with
  | nil => rfl
  | cons p rest ih =>
    simp only [kwargsHasKey, Bool.or_eq_false_iff] at h
    simp [kwargsGet, h.1, ih h.2]

theorem kwargsHasKey_map_replace (l : Kwargs) (k : String) (v : Option Value)
    (f : String) :
    kwargsHasKey (l.map (fun p => if p.1 == k then (k, v) else p)) f =
      kwargsHasKey l f := by
  induction l with
  | nil => rfl
  | cons p rest ih =>
    simp only [List.map_cons, kwargsHasKey]
    by_cases hp : (p.1 == k) = true
    · have hpk : p.1 = k := by simpa using hp
      simp only [hp, if_true, kwargsHasKey]
      rw [ih, hpk]
    · simp only [hp, if_false, Bool.false_eq_true, kwargsHasKey]
      rw [ih]

theorem kwargsHasKey_kwargsSet (l : Kwargs) (k : String) (v : Option Value)
    (f : String) :
    kwargsHasKey (kwargsSet l k v) f = (kwargsHasKey l f || f == k) := by
  unfold kwargsSet
  by_cases h : kwargsHasKey l k = true
  · simp only [h, if_true]
    rw [kwargsHasKey_map_replace]
    by_cases hfk : (f == k) = true
    · have : f = k := by simpa using hfk
      subst this
      simp [h]
    · simp [hfk]
  · simp only [h, if_false, Bool.false_eq_true]
    rw [kwargsHasKey_append]
    simp only [kwargsHasKey, Bool.or_false]
    by_cases hfk : f = k
    · subst hfk; simp
    · have h1 : (k == f) = false := by
        simp only [beq_eq_false_iff_ne]; exact fun hh => hfk hh.symm
      have h2 : (f == k) = false := by simpa using hfk
      simp [h1, h2]

theorem kwargsGet_kwargsSet_self (l : Kwargs) (k : String) (v : Option Value) :
    kwargsGet (kwargsSet l k v) k = v := by
  unfold kwargsSet
  by_cases h : kwargsHasKey l k = true
  · simp only [h, if_true]
    exact kwargsGet_map_replace_self l k v h
  · simp only [h, if_false, Bool.false_eq_true]
    rw [kwargsGet_append]
    simp only [h, if_false, Bool.false_eq_true, kwargsGet]
    simp

theorem kwargsGet_kwargsSet_ne (l : Kwargs) (k : String) (v : Option Value)
    (f : String) (hne : f ≠ k) :
    kwargsGet (kwargsSet l k v) f = kwargsGet l f := by
  unfold kwargsSet
  by_cases h : kwargsHasKey l k = true
  · simp only [h, if_true]
    exact kwargsGet_map_replace_ne l k v f hne
  · simp only [h, if_false, Bool.false_eq_true]
    rw [kwargsGet_append]
    by_cases hf : kwargsHasKey l f = true
    · simp [hf]
    · simp only [hf, if_false, Bool.false_eq_true, kwargsGet]
      have hkf : (k == f) = false := by
        simp only [beq_eq_false_iff_ne]; exact fun hh => hne hh.symm
      simp [hkf, kwargsGet_eq_none_of_not_hasKey l f (by simpa using hf)]

theorem kwargsHasKey_iff_exists (l : Kwargs) (f : String) :
    kwargsHasKey l f = true ↔ ∃ p ∈ l, p.1 = f := by
  induction l with
  | nil => simp [kwargsHasKey]
  | cons p rest ih =>
    simp only [kwargsHasKey, Bool.or_eq_true, beq_iff_eq, ih, List.mem_cons]
    constructor
    · rintro (h | ⟨q, hq, hqf⟩)
      · exact ⟨p, Or.inl rfl, h⟩
      · exact ⟨q, Or.inr hq, hqf⟩
    · rintro ⟨q, hq | hq, hqf⟩
      · subst hq; exact Or.inl hqf
      · exact Or.inr ⟨q, hq, hqf⟩

theorem kwargsHasKey_iff_mem_keys (l : Kwargs) (f : String) :
    kwargsHasKey l f = true ↔ f ∈ l.map Prod.fst := by
  rw [kwargsHasKey_iff_exists]
  constructor
  · rintro ⟨p, hp, hpf⟩
    exact List.mem_map.mpr ⟨p, hp, hpf⟩
  · intro h
    obtain ⟨p, hp, hpf⟩ := List.mem_map.mp h
    exact ⟨p, hp, hpf⟩

theorem keys_nodup_kwargsSet (l : Kwargs) (k : String) (v : Option Value)
    (nd : (l.map Prod.fst).Nodup) : ((kwargsSet l k v).map Prod.fst).Nodup := by
  unfold kwargsSet
  by_cases h : kwargsHasKey l k = true
  · rw [if_pos h, keys_map_replace]
    exact nd
  · rw [if_neg h, List.map_append]
    simp only [List.map_cons, List.map_nil]
    rw [List.nodup_append]
    refine ⟨nd, List.nodup_singleton k, ?_⟩
    intro a ha hb
    simp only [List.mem_singleton] at hb
    subst hb
    exact h ((kwargsHasKey_iff_mem_keys l a).mpr ha)

theorem kwargsGet_mem {l : Kwargs} {f : String} (h : kwargsHasKey l f = true) :
    (f, kwargsGet l f) ∈ l := by
  induction l with
  | nil => simp [kwargsHasKey] at h
  | cons p rest ih =>
    simp only [kwargsHasKey, Bool.or_eq_true] at h
    simp only [kwargsGet]
    by_cases hp : (p.1 == f) = true
    · have hpf : p.1 = f := by simpa using hp
      rw [if_pos hp, ← hpf]
      exact List.mem_cons_self _ _
    · rw [if_neg hp]
      exact List.mem_cons_of_mem _ (ih (h.resolve_left hp))

theorem kwargsGet_of_mem_nodup {l : Kwargs} (nd : (l.map Prod.fst).Nodup)
    {f : String} {v : Option Value} (h : (f, v) ∈ l) : kwargsGet l f = v := by
  induction l with
  | nil => cases h
  | cons p rest ih =>
    simp only [List.map_cons, List.nodup_cons] at nd
    rcases List.mem_cons.mp h with heq | hmem
    · cases heq
      simp [kwargsGet]
    · have hf : f ∈ rest.map Prod.fst := List.mem_map.mpr ⟨(f, v), hmem, rfl⟩
      have hp : ¬(p.1 == f) = true := by
        simp only [beq_iff_eq]
        intro hh
        exact nd.1 (hh ▸ hf)
      simp only [kwargsGet]
      rw [if_neg hp]
      exact ih nd.2 hmem

theorem kwargsHasKey_perm {l₁ l₂ : Kwargs} (h : l₁.Perm l₂) (f : String) :
    kwargsHasKey l₁ f = kwargsHasKey l₂ f := by
  cases h1 : kwargsHasKey l₁ f <;> cases h2 : kwargsHasKey l₂ f <;> try rfl
  · obtain ⟨p, hp, hpf⟩ := (kwargsHasKey_iff_exists _ _).mp h2
    have := (kwargsHasKey_iff_exists l₁ f).mpr ⟨p, h.mem_iff.mpr hp, hpf⟩
    simp_all
  · obtain ⟨p, hp, hpf⟩ := (kwargsHasKey_iff_exists _ _).mp h1
    have := (kwargsHasKey_iff_exists l₂ f).mpr ⟨p, h.mem_iff.mp hp, hpf⟩
    simp_all

theorem kwargsGet_perm {l₁ l₂ : Kwargs} (h : l₁.Perm l₂)
    (nd : (l₁.map Prod.fst).Nodup) (f : String) :
    kwargsGet l₁ f = kwargsGet l₂ f := by
  by_cases hk : kwargsHasKey l₁ f = true
  · have h1 := kwargsGet_mem hk
    have h2 : (f, kwargsGet l₁ f) ∈ l₂ := h.mem_iff.mp h1
    have nd₂ : (l₂.map Prod.fst).Nodup := ((h.map Prod.fst).nodup_iff).mp nd
    exact (kwargsGet_of_mem_nodup nd₂ h2).symm
  · have hk₂ : kwargsHasKey l₂ f = false := by
      rw [← kwargsHasKey_perm h f]
      simpa using hk
    rw [kwargsGet_eq_none_of_not_hasKey _ _ (by simpa using hk),
      kwargsGet_eq_none_of_not_hasKey _ _ hk₂]

/-! ## Lemmas: the nullability checks -/

theorem string_contains_iff (l : List String) (a : String) :
    l.contains a = true ↔ a ∈ l :=
  List.elem_iff

theorem verify_null_kwargs_cases (m : ModelClass) (l : Kwargs) :
    verify_null_kwargs m l = .ok () ∨
      ∃ f, verify_null_kwargs m l = .error (.notNullable m.name f) := by
  induction l with
  | nil => exact Or.inl rfl
  | cons p rest ih =>
    simp only [verify_null_kwargs]
    by_cases h : ((nonNullableColumns m).contains p.1 && p.2.isNone) = true
    · rw [if_pos h]
      exact Or.inr ⟨p.1, rfl⟩
    · rw [if_neg h]
      exact ih

theorem verify_null_kwargs_error_iff (m : ModelClass) (l : Kwargs) :
    (∃ f, verify_null_kwargs m l = .error (.notNullable m.name f)) ↔
      ∃ p ∈ l, p.1 ∈ nonNullableColumns m ∧ p.2 = none := by
  induction l with
  | nil => simp [verify_null_kwargs]
  | cons p rest ih =>
    simp only [verify_null_kwargs]
    by_cases h : ((nonNullableColumns m).contains p.1 && p.2.isNone) = true
    · rw [if_pos h]
      simp only [Bool.and_eq_true, Option.isNone_iff_eq_none] at h
      constructor
      · intro _
        exact ⟨p, List.mem_cons_self _ _, (string_contains_iff _ _).mp h.1, h.2⟩
      · intro _
        exact ⟨p.1, rfl⟩
    · rw [if_neg h]
      rw [ih]
      constructor
      · rintro ⟨q, hq, hmem, hnone⟩
        exact ⟨q, List.mem_cons_of_mem _ hq, hmem, hnone⟩
      · rintro ⟨q, hq, hmem, hnone⟩
        rcases List.mem_cons.mp hq with heq | hq'
        · exfalso
          apply h
          subst heq
          rw [Bool.and_eq_true]
          refine ⟨(string_contains_iff _ _).mpr hmem, ?_⟩
          rw [Option.isNone_iff_eq_none]
          exact hnone
        · exact ⟨q, hq', hmem, hnone⟩

theorem verifyAllDefinedAux_cases (nm : String) (kwargs : Kwargs) (fs : List String) :
    verifyAllDefinedAux nm kwargs fs = .ok () ∨
      ∃ f, verifyAllDefinedAux nm kwargs fs = .error (.notNullable nm f) := by
  induction fs with
  | nil => exact Or.inl rfl
  | cons f rest ih =>
    simp only [verifyAllDefinedAux]
    by_cases h : kwargsHasKey kwargs f = true
    · rw [if_pos h]
      exact ih
    · rw [if_neg h]
      exact Or.inr ⟨f, rfl⟩

theorem verifyAllDefinedAux_error_iff (nm : String) (kwargs : Kwargs) (fs : List String) :
    (∃ f, verifyAllDefinedAux nm kwargs fs = .error (.notNullable nm f)) ↔
      ∃ f ∈ fs, kwargsHasKey kwargs f = false := by
  induction fs with
  | nil => simp [verifyAllDefinedAux]
  | cons f rest ih =>
    simp only [verifyAllDefinedAux]
    by_cases h : kwargsHasKey kwargs f = true
    · rw [if_pos h, ih]
      constructor
      · rintro ⟨g, hg, hkey⟩
        exact ⟨g, List.mem_cons_of_mem _ hg, hkey⟩
      · rintro ⟨g, hg, hkey⟩
        rcases List.mem_cons.mp hg with heq | hg'
        · subst heq; simp_all
        · exact ⟨g, hg', hkey⟩
    · rw [if_neg h]
      constructor
      · intro _
        exact ⟨f, List.mem_cons_self _ _, by simpa using h⟩
      · intro _
        exact ⟨f, rfl⟩

theorem create_notNullable_iff (m : ModelClass) (store : List Row) (kwargs : Kwargs)
    (nd : (kwargs.map Prod.fst).Nodup) :
    (∃ f, create m store kwargs = .error (.notNullable m.name f)) ↔
      ∃ f ∈ nonNullableColumns m,
        kwargsGet (kwargsSet (kwargsSet kwargs "updated_by" (kwargsGet kwargs "created_by"))
          "updated_at"
          (kwargsGet (kwargsSet kwargs "updated_by" (kwargsGet kwargs "created_by"))
            "created_at")) f = none := by
  set k1 := kwargsSet kwargs "updated_by" (kwargsGet kwargs "created_by") with hk1
  set k2 := kwargsSet k1 "updated_at" (kwargsGet k1 "created_at") with hk2
  have nd2 : (k2.map Prod.fst).Nodup :=
    keys_nodup_kwargsSet _ _ _ (keys_nodup_kwargsSet _ _ _ nd)
  have hcr : create m store kwargs =
      (match verify_null_kwargs m k2 with
       | .error e => .error e
       | .ok _ =>
         match verify_all_non_nullable_fields_defined m k2 with
         | .error e => .error e
         | .ok _ =>
           if k2.all (fun p => m.columns.any (fun c => c.name == p.1)) then
             if rowIntegrity m (mkRow m k2) then .ok (store ++ [mkRow m k2])
             else .error .integrityError
           else .error .typeError) := rfl
  rw [hcr]
  rcases verify_null_kwargs_cases m k2 with hok | ⟨f0, herr⟩
  · rw [hok]
    rcases verifyAllDefinedAux_cases m.name k2 (nonNullableColumns m) with haok | ⟨f0, haerr⟩
    · rw [show verify_all_non_nullable_fields_defined m k2 =
          verifyAllDefinedAux m.name k2 (nonNullableColumns m) from rfl, haok]
      apply iff_of_false
      · rintro ⟨f, hf⟩
        by_cases hall : (k2.all (fun p => m.columns.any (fun c => c.name == p.1))) = true
        · rw [if_pos hall] at hf
          by_cases hint : rowIntegrity m (mkRow m k2) = true
          · rw [if_pos hint] at hf
            cases hf
          · rw [if_neg hint] at hf
            cases hf
        · rw [if_neg hall] at hf
          cases hf
      · rintro ⟨f, hf, hnone⟩
        by_cases hk : kwargsHasKey k2 f = true
        · have hm := kwargsGet_mem hk
          rw [hnone] at hm
          have : ∃ g, verify_null_kwargs m k2 = .error (.notNullable m.name g) :=
            (verify_null_kwargs_error_iff m k2).mpr ⟨(f, none), hm, hf, rfl⟩
          obtain ⟨g, hg⟩ := this
          rw [hok] at hg
          cases hg
        · have : ∃ g, verifyAllDefinedAux m.name k2 (nonNullableColumns m) =
              .error (.notNullable m.name g) :=
            (verifyAllDefinedAux_error_iff m.name k2 (nonNullableColumns m)).mpr
              ⟨f, hf, by simpa using hk⟩
          obtain ⟨g, hg⟩ := this
          rw [haok] at hg
          cases hg
    · rw [show verify_all_non_nullable_fields_defined m k2 =
          verifyAllDefinedAux m.name k2 (nonNullableColumns m) from rfl, haerr]
      apply iff_of_true
      · exact ⟨f0, rfl⟩
      · obtain ⟨f, hf, hkey⟩ :=
          (verifyAllDefinedAux_error_iff m.name k2 (nonNullableColumns m)).mp ⟨f0, haerr⟩
        exact ⟨f, hf, kwargsGet_eq_none_of_not_hasKey _ _ hkey⟩
  · rw [herr]
    apply iff_of_true
    · exact ⟨f0, rfl⟩
    · obtain ⟨p, hp, hmem, hnone⟩ := (verify_null_kwargs_error_iff m k2).mp ⟨f0, herr⟩
      refine ⟨p.1, hmem, ?_⟩
      have : (p.1, p.2) ∈ k2 := by
        simpa using hp
      rw [kwargsGet_of_mem_nodup nd2 this, hnone]

theorem mem_kwargsSet_of_mem {l : Kwargs} {p : String × Option Value} (h : p ∈ l)
    (k : String) (v : Option Value) (hne : p.1 ≠ k) : p ∈ kwargsSet l k v := by
  unfold kwargsSet
  by_cases hk : kwargsHasKey l k = true
  · rw [if_pos hk]
    refine List.mem_map.mpr ⟨p, h, ?_⟩
    rw [if_neg (fun hh => hne (by simpa using hh))]
  · rw [if_neg hk]
    exact List.mem_append_left _ h

theorem create_eq_error_of_verify_null (m : ModelClass) (store : List Row)
    (kwargs : Kwargs) (e : DaoError)
    (h : verify_null_kwargs m
        (kwargsSet (kwargsSet kwargs "updated_by" (kwargsGet kwargs "created_by"))
          "updated_at"
          (kwargsGet (kwargsSet kwargs "updated_by" (kwargsGet kwargs "created_by"))
            "created_at")) = .error e) :
    create m store kwargs = .error e := by
  simp only [create]
  rw [h]

theorem update_found_eq (m : ModelClass) (store : List Row) (id : Option Value)
    (now : Nat) (kwargs : Kwargs) (inst : Row) (hne : kwargs ≠ [])
    (hinst : getOne m store id = .ok (some inst)) :
    update m store id now kwargs =
      match verify_null_kwargs m kwargs with
      | .error e => .error e
      | .ok _ =>
        if rowIntegrity m (rowSet (applyKwargsToRow inst kwargs) "updated_at"
            (some (.time now))) then
          .ok (store.map (fun r =>
            if sqlEqOpt (rowGet r (getIdField m)) id then
              rowSet (applyKwargsToRow inst kwargs) "updated_at" (some (.time now))
            else r))
        else .error .integrityError := by
  have hne2 : ¬(kwargs.isEmpty = true) := by
    cases kwargs
    · exact absurd rfl hne
    · exact Bool.false_ne_true
  unfold update
  rw [if_neg hne2, hinst]

/-! ## C1: required-field enforcement on create -/

/-- **C1 (amended)**: `create` fails with NotNullableError iff, after its
backfill `updated_by := kwargs.get("created_by")` and
`updated_at := kwargs.get("created_at")`, some required-on-create column
(non-nullable, no default) is absent from or null in the resulting
mapping; and whether it fails is independent of the order of the supplied
fields. -/
theorem create_required_on_create_iff (m : ModelClass) (store : List Row)
    (kwargs : Kwargs) (nd : (kwargs.map Prod.fst).Nodup) :
    ((∃ f, create m store kwargs = .error (.notNullable m.name f)) ↔
      ∃ f ∈ nonNullableColumns m,
        kwargsGet (kwargsSet (kwargsSet kwargs "updated_by" (kwargsGet kwargs "created_by"))
          "updated_at" (kwargsGet kwargs "created_at")) f = none) ∧
    ∀ kwargs' : Kwargs, kwargs.Perm kwargs' →
      ((∃ f, create m store kwargs = .error (.notNullable m.name f)) ↔
       (∃ f, create m store kwargs' = .error (.notNullable m.name f))) := by
  have hbridge : kwargsGet (kwargsSet kwargs "updated_by" (kwargsGet kwargs "created_by"))
      "created_at" = kwargsGet kwargs "created_at" :=
    kwargsGet_kwargsSet_ne _ _ _ _ (by decide)
  constructor
  · rw [← hbridge]
    exact create_notNullable_iff m store kwargs nd
  · intro kwargs' hperm
    have nd' : (kwargs'.map Prod.fst).Nodup := ((hperm.map Prod.fst).nodup_iff).mp nd
    rw [create_notNullable_iff m store kwargs nd, create_notNullable_iff m store kwargs' nd']
    have hget : ∀ g, kwargsGet kwargs g = kwargsGet kwargs' g := kwargsGet_perm hperm nd
    have hK : ∀ g,
        kwargsGet (kwargsSet (kwargsSet kwargs "updated_by" (kwargsGet kwargs "created_by"))
          "updated_at"
          (kwargsGet (kwargsSet kwargs "updated_by" (kwargsGet kwargs "created_by"))
            "created_at")) g =
        kwargsGet (kwargsSet (kwargsSet kwargs' "updated_by" (kwargsGet kwargs' "created_by"))
          "updated_at"
          (kwargsGet (kwargsSet kwargs' "updated_by" (kwargsGet kwargs' "created_by"))
            "created_at")) g := by
      intro g
      by_cases h1 : g = "updated_at"
      · subst h1
        rw [kwargsGet_kwargsSet_self, kwargsGet_kwargsSet_self,
          kwargsGet_kwargsSet_ne _ _ _ _ (by decide),
          kwargsGet_kwargsSet_ne _ _ _ _ (by decide), hget]
      · rw [kwargsGet_kwargsSet_ne _ _ _ _ h1, kwargsGet_kwargsSet_ne _ _ _ _ h1]
        by_cases h2 : g = "updated_by"
        · subst h2
          rw [kwargsGet_kwargsSet_self, kwargsGet_kwargsSet_self, hget]
        · rw [kwargsGet_kwargsSet_ne _ _ _ _ h2, kwargsGet_kwargsSet_ne _ _ _ _ h2, hget]
    exact exists_congr fun f => and_congr_right fun _ => by rw [hK f]

/-- **C1 counterexample**: `updated_by` is required-on-create and absent
from the supplied mapping, yet `create` succeeds, because the backfill
from `created_by` runs before the missing-field check. -/
theorem create_missing_required_field_succeeds :
    "updated_by" ∈ nonNullableColumns Organizations ∧
    kwargsHasKey orgCreateKwargs "updated_by" = false ∧
    create Organizations [] orgCreateKwargs = .ok [orgRow1] :=
  ⟨by decide, rfl, rfl⟩

/-- Witness for `create_required_on_create_iff`: the empty payload is
missing `organizations_id`, so create fails with NotNullable. -/
theorem create_required_on_create_iff_witness :
    ∃ f, create Organizations [] [] = .error (.notNullable Organizations.name f) :=
  (create_required_on_create_iff Organizations [] [] List.nodup_nil).1.mpr
    ⟨"organizations_id", by decide, rfl⟩

/-! ## C2: explicit-null rejection -/

/-- **C2 (amended)**: an explicit null for a non-nullable **default-free**
column is rejected with NotNullableError by `update` (once the id
resolves) and by `create` (for every such column other than
`updated_by`/`updated_at`, which `create` overwrites before the check);
non-nullable columns with a default, such as `is_deleted`, are outside the
checked set. -/
theorem null_rejection (m : ModelClass) (store : List Row) (id : Option Value)
    (now : Nat) (kwargs : Kwargs) (f : String)
    (hf : f ∈ nonNullableColumns m) (hmem : (f, none) ∈ kwargs) :
    ((∃ inst, getOne m store id = .ok (some inst)) →
      ∃ g, update m store id now kwargs = .error (.notNullable m.name g)) ∧
    (f ≠ "updated_by" → f ≠ "updated_at" →
      ∃ g, create m store kwargs = .error (.notNullable m.name g)) := by
  constructor
  · rintro ⟨inst, hinst⟩
    have hnil : kwargs ≠ [] := by
      intro hh
      rw [hh] at hmem
      cases hmem
    obtain ⟨g, hg⟩ := (verify_null_kwargs_error_iff m kwargs).mpr ⟨(f, none), hmem, hf, rfl⟩
    rw [update_found_eq m store id now kwargs inst hnil hinst, hg]
    exact ⟨g, rfl⟩
  · intro hub hua
    have hmem2 : (f, none) ∈
        kwargsSet (kwargsSet kwargs "updated_by" (kwargsGet kwargs "created_by"))
          "updated_at"
          (kwargsGet (kwargsSet kwargs "updated_by" (kwargsGet kwargs "created_by"))
            "created_at") :=
      mem_kwargsSet_of_mem (mem_kwargsSet_of_mem hmem _ _ hub) _ _ hua
    obtain ⟨g, hg⟩ := (verify_null_kwargs_error_iff m _).mpr ⟨(f, none), hmem2, hf, rfl⟩
    exact ⟨g, create_eq_error_of_verify_null m store kwargs _ hg⟩

/-- **C2 counterexample**: `is_deleted` is declared non-nullable (with a
default), but an explicit null in `update` passes both DAO checks and
fails only with the store-level IntegrityError at commit — not with
NotNullableError. -/
theorem update_is_deleted_null_not_notNullable :
    (Organizations.columns.any (fun c => c.name == "is_deleted" && !c.nullable)) = true ∧
    (nonNullableColumns Organizations).contains "is_deleted" = false ∧
    update Organizations orgStore1 (some (.str "o1")) 9 [("is_deleted", none)] =
      .error .integrityError :=
  ⟨rfl, rfl, rfl⟩

/-- Witness for `null_rejection` at a concrete input. -/
theorem null_rejection_witness :
    ∃ g, update Organizations orgStore1 (some (.str "o1")) 9
      [("organization_name", none)] = .error (.notNullable Organizations.name g) :=
  (null_rejection Organizations orgStore1 (some (.str "o1")) 9
    [("organization_name", none)] "organization_name" (by decide)
    (List.mem_singleton.mpr rfl)).1 ⟨orgRow1, rfl⟩

/-! ## C3: filter validation in list -/

theorem list_guard_pass (m : ModelClass) (store : List Row) (page size : Int)
    (ob : String) (pk : List Value) (incl : Bool) (ff : Kwargs)
    (hp : 0 ≤ page) (hs1 : 1 ≤ size) (hs2 : size ≤ 100) :
    list m store page size ob pk incl ff =
      match applyFilterFields m (visibleRows m store pk incl) ff with
      | .error e => .error e
      | .ok q3 =>
        match orderingAttr ob with
        | none => .error .attributeError
        | some spec =>
          .ok ⟨((sortLe (orderLe spec) q3).drop (page * size).toNat).take size.toNat,
            q3.length⟩ := by
  have h1 : ¬(page < 0) := by omega
  have h2 : ¬((size < 1 || size > 100) = true) := by
    simp only [Bool.or_eq_true, decide_eq_true_eq]
    omega
  unfold list
  rw [if_neg h1, if_neg h2]

theorem queryParserCriterion_invalidField (m : ModelClass) (fstr : String) (v : Value)
    (h : resolveAttr m ((splitDunder fstr).headD "") = none) :
    queryParserCriterion m fstr v =
      .error (.invalidFilterField m.name ((splitDunder fstr).headD "")) := by
  simp only [queryParserCriterion]
  rw [h]

theorem queryParserCriterion_invalidMethod (m : ModelClass) (fstr : String) (v : Value)
    (meth : String)
    (hres : resolveAttr m ((splitDunder fstr).headD "") = some .column)
    (hlen : 1 < (splitDunder fstr).length)
    (hmeth : (splitDunder fstr).getD 1 "" = meth)
    (hnot : meth ∉ validFilterMethods) :
    queryParserCriterion m fstr v =
      .error (.invalidFilterMethod m.name ((splitDunder fstr).headD "") meth) := by
  have hml : decide ((splitDunder fstr).length > 1) = true := by
    simpa using hlen
  have hne : ∀ w : String, w ∈ validFilterMethods → (meth == w) = false := by
    intro w hw
    rw [beq_eq_false_iff_ne]
    intro hh
    exact hnot (hh ▸ hw)
  simp only [queryParserCriterion]
  rw [hres, hml, hmeth]
  simp only [Bool.not_true, Bool.false_eq_true, if_false]
  rw [hne "in" (by decide), hne "contains" (by decide), hne "icontains" (by decide),
    hne "gt" (by decide), hne "gte" (by decide), hne "lt" (by decide),
    hne "lte" (by decide)]
  simp only [Bool.false_eq_true, if_false]

theorem applyFilterFields_single_error (m : ModelClass) (q : List Row) (fstr : String)
    (v : Value) (e : DaoError) (h : queryParserCriterion m fstr v = .error e) :
    applyFilterFields m q [(fstr, some v)] = .error e := by
  simp only [applyFilterFields, queryParserFilter, h]

/-- **C3 (amended)**: with a single non-null filter field, `list` fails with
InvalidFilterFieldError when the segment before `__` resolves to **no
attribute of the model class at all** (columns and inherited helper
methods alike), and with InvalidFilterMethodError when the segment
resolves to a column and the operator suffix falls outside
{in, contains, icontains, gt, gte, lt, lte}. -/
theorem list_filter_validation (m : ModelClass) (store : List Row) (page size : Int)
    (ob : String) (pk : List Value) (incl : Bool) (fstr : String) (v : Value)
    (hp : 0 ≤ page) (hs1 : 1 ≤ size) (hs2 : size ≤ 100) :
    (resolveAttr m ((splitDunder fstr).headD "") = none →
      list m store page size ob pk incl [(fstr, some v)] =
        .error (.invalidFilterField m.name ((splitDunder fstr).headD ""))) ∧
    (∀ meth, resolveAttr m ((splitDunder fstr).headD "") = some .column →
      1 < (splitDunder fstr).length → (splitDunder fstr).getD 1 "" = meth →
      meth ∉ validFilterMethods →
      list m store page size ob pk incl [(fstr, some v)] =
        .error (.invalidFilterMethod m.name ((splitDunder fstr).headD "") meth)) := by
  constructor
  · intro hres
    rw [list_guard_pass m store page size ob pk incl _ hp hs1 hs2,
      applyFilterFields_single_error _ _ _ _ _
        (queryParserCriterion_invalidField m fstr v hres)]
  · intro meth hres hlen hmeth hnot
    rw [list_guard_pass m store page size ob pk incl _ hp hs1 hs2,
      applyFilterFields_single_error _ _ _ _ _
        (queryParserCriterion_invalidMethod m fstr v meth hres hlen hmeth hnot)]

/-- **C3 counterexample**: `to_dict` is not a declared column, yet filtering
on it raises no InvalidFilterFieldError — `getattr` resolves the inherited
helper method, `field == value` is plain `False`, and `list` returns an
empty page. -/
theorem list_to_dict_filter_not_field_error :
    (Organizations.columns.all (fun c => c.name != "to_dict")) = true ∧
    list Organizations orgStore1 0 100 "CREATED_AT_ASC" [] false
      [("to_dict", some (.str "x"))] = .ok ⟨[], 0⟩ :=
  ⟨rfl, rfl⟩

/-- Witness for `list_filter_validation` at concrete inputs. -/
theorem list_filter_validation_witness :
    list Organizations orgStore1 0 100 "CREATED_AT_ASC" [] false
      [("nosuch", some (.str "x"))] =
      .error (.invalidFilterField Organizations.name "nosuch") ∧
    list Organizations orgStore1 0 100 "CREATED_AT_ASC" [] false
      [("organization_name__between", some (.str "x"))] =
      .error (.invalidFilterMethod Organizations.name "organization_name" "between") := by
  constructor
  · exact (list_filter_validation Organizations orgStore1 0 100 "CREATED_AT_ASC" [] false
      "nosuch" (.str "x") (by decide) (by decide) (by decide)).1 rfl
  · exact (list_filter_validation Organizations orgStore1 0 100 "CREATED_AT_ASC" [] false
      "organization_name__between" (.str "x") (by decide) (by decide) (by decide)).2
      "between" rfl (by decide) rfl (by decide)

/-! ## C8: null-valued filter fields are skipped -/

theorem applyFilterFields_skip_none (m : ModelClass) (q : List Row) (ff1 ff2 : Kwargs)
    (f : String) :
    applyFilterFields m q (ff1 ++ (f, none) :: ff2) = applyFilterFields m q (ff1 ++ ff2) := by
  induction ff1 generalizing q with
  | nil => simp only [List.nil_append, applyFilterFields]
  | cons p rest ih =>
    match p with
    | (pf, none) =>
      simp only [List.cons_append, applyFilterFields]
      exact ih q
    | (pf, some pv) =>
      simp only [List.cons_append, applyFilterFields]
      cases h : queryParserFilter m q pf pv with
      | error e => simp only [h]
      | ok q2 =>
        simp only [h]
        exact ih q2

/-- **C8 (confirmed)**: a filter field supplied with a null value
contributes no predicate — `list` returns exactly what it returns with
that field omitted, wherever it appears among the filter fields. -/
theorem list_null_filter_skipped (m : ModelClass) (store : List Row) (page size : Int)
    (ob : String) (pk : List Value) (incl : Bool) (ff1 ff2 : Kwargs) (f : String) :
    list m store page size ob pk incl (ff1 ++ (f, none) :: ff2) =
      list m store page size ob pk incl (ff1 ++ ff2) := by
  unfold list
  rw [applyFilterFields_skip_none]

/-! ## C10: the paged lookup helper ignores its paging parameters -/

/-- **C10 (confirmed)**: `fetch_row_based_on_column` rebinds `page_offset`,
`max_pages` and `order_by` to the constants `0`, `10` and
`CREATED_AT_ASC` before any use, so two calls differing only in those
arguments return the same result. -/
theorem fetch_row_param_independent (m : ModelClass) (store : List Row)
    (c : String) (v : Option Value) (p₁ mp₁ : Int) (ob₁ : String)
    (p₂ mp₂ : Int) (ob₂ : String) :
    fetch_row_based_on_column m store c v p₁ mp₁ ob₁ =
      fetch_row_based_on_column m store c v p₂ mp₂ ob₂ := rfl

/-! ## C7: the paged lookup loop -/

theorem list_ok_elim {m : ModelClass} {store : List Row} {page size : Int} {ob : String}
    {pk : List Value} {incl : Bool} {ff : Kwargs} {resp : BaseDaoListResponse}
    (h : list m store page size ob pk incl ff = .ok resp) :
    0 ≤ page ∧ 1 ≤ size ∧ size ≤ 100 ∧
    ∃ q3 spec, applyFilterFields m (visibleRows m store pk incl) ff = .ok q3 ∧
      orderingAttr ob = some spec ∧
      resp = ⟨((sortLe (orderLe spec) q3).drop (page * size).toNat).take size.toNat,
        q3.length⟩ := by
  by_cases h1 : page < 0
  · unfold list at h
    rw [if_pos h1] at h
    cases h
  · by_cases h2 : (size < 1 || size > 100) = true
    · unfold list at h
      rw [if_neg h1, if_pos h2] at h
      cases h
    · have hp : 0 ≤ page := by omega
      have hs : 1 ≤ size ∧ size ≤ 100 := by
        simp only [Bool.or_eq_true, decide_eq_true_eq] at h2
        push_neg at h2
        omega
      rw [list_guard_pass m store page size ob pk incl ff hp hs.1 hs.2] at h
      cases h3 : applyFilterFields m (visibleRows m store pk incl) ff with
      | error e =>
        rw [h3] at h
        cases h
      | ok q3 =>
        rw [h3] at h
        cases ho : orderingAttr ob with
        | none =>
          rw [ho] at h
          cases h
        | some spec =>
          rw [ho] at h
          exact ⟨hp, hs.1, hs.2, q3, spec, rfl, rfl, (Except.ok.inj h).symm⟩

theorem list_ok_intro (m : ModelClass) (store : List Row) (page size : Int)
    (ob : String) (pk : List Value) (incl : Bool) (ff : Kwargs) (q3 : List Row)
    (spec : OrderSpec) (hp : 0 ≤ page) (hs1 : 1 ≤ size) (hs2 : size ≤ 100)
    (h3 : applyFilterFields m (visibleRows m store pk incl) ff = .ok q3)
    (ho : orderingAttr ob = some spec) :
    list m store page size ob pk incl ff =
      .ok ⟨((sortLe (orderLe spec) q3).drop (page * size).toNat).take size.toNat,
        q3.length⟩ := by
  rw [list_guard_pass m store page size ob pk incl ff hp hs1 hs2, h3, ho]

theorem list_count_zero_all_pages {m : ModelClass} {store : List Row} {ob : String}
    {pk : List Value} {incl : Bool} {ff : Kwargs} {resp : BaseDaoListResponse}
    (h : list m store 0 100 ob pk incl ff = .ok resp) (hc : resp.count = 0) :
    ∀ p : Int, 0 ≤ p → list m store p 100 ob pk incl ff = .ok ⟨[], 0⟩ := by
  obtain ⟨-, -, -, q3, spec, h3, ho, hresp⟩ := list_ok_elim h
  have hq3 : q3 = [] := by
    have hl : q3.length = 0 := by
      rw [hresp] at hc
      exact hc
    exact List.length_eq_zero.mp hl
  subst hq3
  intro p hp
  have hi := list_ok_intro m store p 100 ob pk incl ff [] spec hp (by norm_num)
    (by norm_num) h3 ho
  simpa [sortLe] using hi

theorem fetchLoop_all_empty (m : ModelClass) (store : List Row) (ob : String)
    (c : String) (v : Option Value) (recs : List Row)
    (hall : ∀ p : Int, 0 ≤ p → list m store p 100 ob [] false [(c, v)] = .ok ⟨[], 0⟩) :
    ∀ (n : Nat) (p : Int), 0 ≤ p → fetchLoop m store ob c v recs p n = .ok recs := by
  intro n
  induction n with
  | zero =>
    intro p _
    rfl
  | succ k ih =>
    intro p hp
    have hstep : fetchLoop m store ob c v recs p (k + 1) =
        (match list m store p 100 ob [] false [(c, v)] with
         | .error e => .error e
         | .ok resp =>
           if resp.count > 0 then .ok (recs ++ resp.items)
           else fetchLoop m store ob c v recs (p + 1) k) := rfl
    rw [hstep, hall p hp]
    show (if (0 : Nat) > 0 then Except.ok (recs ++ ([] : List Row))
          else fetchLoop m store ob c v recs (p + 1) k) = .ok recs
    rw [if_neg (by omega : ¬((0 : Nat) > 0))]
    exact ih (p + 1) (by omega)

/-- **C7 (confirmed)**: the paged lookup helper issues `list` calls at page
0 and onward with ascending creation-time order, default page size and the
single column filter; it returns the first page's items as soon as the
count is non-zero, and after its 10-attempt budget returns an empty
collection instead of an error.  Because the count of a filtered set does
not depend on the page, the whole behaviour is determined by the page-0
call. -/
theorem fetch_row_spec (m : ModelClass) (store : List Row) (c : String)
    (v : Option Value) (p₀ mp : Int) (ob : String) :
    (∀ e, list m store 0 100 "CREATED_AT_ASC" [] false [(c, v)] = .error e →
      fetch_row_based_on_column m store c v p₀ mp ob = .error e) ∧
    (∀ resp, list m store 0 100 "CREATED_AT_ASC" [] false [(c, v)] = .ok resp →
      (0 < resp.count →
        fetch_row_based_on_column m store c v p₀ mp ob = .ok resp.items) ∧
      (resp.count = 0 →
        fetch_row_based_on_column m store c v p₀ mp ob = .ok [])) := by
  have hfr : fetch_row_based_on_column m store c v p₀ mp ob =
      fetchLoop m store "CREATED_AT_ASC" c v [] 0 10 := rfl
  have hstep : fetchLoop m store "CREATED_AT_ASC" c v [] 0 10 =
      (match list m store 0 100 "CREATED_AT_ASC" [] false [(c, v)] with
       | .error e => .error e
       | .ok resp =>
         if resp.count > 0 then .ok (([] : List Row) ++ resp.items)
         else fetchLoop m store "CREATED_AT_ASC" c v [] (0 + 1) 9) := rfl
  constructor
  · intro e he
    rw [hfr, hstep, he]
  · intro resp hresp
    constructor
    · intro hpos
      have hred : fetchLoop m store "CREATED_AT_ASC" c v [] 0 10 =
          (if resp.count > 0 then .ok (([] : List Row) ++ resp.items)
           else fetchLoop m store "CREATED_AT_ASC" c v [] (0 + 1) 9) := by
        rw [hstep, hresp]
      rw [hfr, hred, if_pos hpos, List.nil_append]
    · intro hzero
      rw [hfr]
      exact fetchLoop_all_empty m store "CREATED_AT_ASC" c v []
        (list_count_zero_all_pages hresp hzero) 10 0 (by norm_num)

/-- Witness for `fetch_row_spec` at concrete inputs: a present name is
found on page 0; an absent name yields an empty list, not an error. -/
theorem fetch_row_spec_witness :
    fetch_row_based_on_column Organizations orgStore1 "organization_name"
      (some (.str "Acme")) 0 10 "CREATED_AT_ASC" = .ok [orgRow1] ∧
    fetch_row_based_on_column Organizations orgStore1 "organization_name"
      (some (.str "Nope")) 0 10 "CREATED_AT_ASC" = .ok [] := by
  constructor
  · exact ((fetch_row_spec Organizations orgStore1 "organization_name"
      (some (.str "Acme")) 0 10 "CREATED_AT_ASC").2 ⟨[orgRow1], 1⟩ rfl).1 (by decide)
  · exact ((fetch_row_spec Organizations orgStore1 "organization_name"
      (some (.str "Nope")) 0 10 "CREATED_AT_ASC").2 ⟨[], 0⟩ rfl).2 rfl

/-! ## C5: total_count before pagination -/

theorem queryParserFilter_ok {m : ModelClass} {q : List Row} {fstr : String} {v : Value}
    {q' : List Row} (h : queryParserFilter m q fstr v = .ok q') :
    ∃ pred, queryParserCriterion m fstr v = .ok pred ∧ q' = q.filter pred := by
  unfold queryParserFilter at h
  cases hc : queryParserCriterion m fstr v with
  | error e =>
    rw [hc] at h
    cases h
  | ok pred =>
    rw [hc] at h
    exact ⟨pred, rfl, (Except.ok.inj h).symm⟩

theorem applyFilterFields_ok_filter (m : ModelClass) :
    ∀ (ff : Kwargs) (q q' : List Row),
    applyFilterFields m q ff = .ok q' → q' = q.filter (matchesFilterFields m ff) := by
  intro ff
  induction ff with
  | nil =>
    intro q q' h
    have hq : q' = q := (Except.ok.inj h).symm
    subst hq
    have hcg : q'.filter (matchesFilterFields m []) = q'.filter (fun _ => true) :=
      List.filter_congr (fun a _ => rfl)
    rw [hcg, List.filter_true]
  | cons p rest ih =>
    intro q q' h
    match p with
    | (pf, none) =>
      have h' : applyFilterFields m q rest = .ok q' := h
      rw [ih q q' h']
      exact List.filter_congr (fun a _ => by
        simp only [matchesFilterFields, List.all_cons, Bool.true_and])
    | (pf, some pv) =>
      simp only [applyFilterFields] at h
      cases hq : queryParserFilter m q pf pv with
      | error e =>
        rw [hq] at h
        cases h
      | ok q2 =>
        rw [hq] at h
        obtain ⟨pred, hc, hq2⟩ := queryParserFilter_ok hq
        rw [ih q2 q' h, hq2, List.filter_filter]
        exact List.filter_congr (fun a _ => by
          simp only [matchesFilterFields, List.all_cons, hc, Bool.and_comm])

/-- **C5 (confirmed)**: on a successful `list`, `total_count` is the number
of visible records matching the filter set — computed before limit/offset,
hence the same for every valid page and size — and the returned page holds
at most `size` items. -/
theorem list_pagination_count (m : ModelClass) (store : List Row) (page size : Int)
    (ob : String) (pk : List Value) (incl : Bool) (ff : Kwargs)
    (resp : BaseDaoListResponse)
    (h : list m store page size ob pk incl ff = .ok resp) :
    resp.items.length ≤ size.toNat ∧
    resp.count = ((visibleRows m store pk incl).filter (matchesFilterFields m ff)).length ∧
    ∀ page' size' : Int, 0 ≤ page' → 1 ≤ size' → size' ≤ 100 →
      ∃ resp', list m store page' size' ob pk incl ff = .ok resp' ∧
        resp'.count = resp.count ∧ resp'.items.length ≤ size'.toNat := by
  obtain ⟨hp, hs1, hs2, q3, spec, h3, ho, hresp⟩ := list_ok_elim h
  have hcount : resp.count = q3.length := by rw [hresp]
  have hfilter : q3 = (visibleRows m store pk incl).filter (matchesFilterFields m ff) :=
    applyFilterFields_ok_filter m ff _ _ h3
  refine ⟨?_, ?_, ?_⟩
  · rw [hresp]
    exact List.length_take_le _ _
  · rw [hcount, hfilter]
  · intro page' size' hp' hs1' hs2'
    refine ⟨_, list_ok_intro m store page' size' ob pk incl ff q3 spec hp' hs1' hs2' h3 ho,
      ?_, ?_⟩
    · rw [hcount]
    · exact List.length_take_le _ _

/-- Witness for `list_pagination_count`: from a page-0/size-1 call on the
one-record store, the count-invariance part yields the page-3/size-2 call. -/
theorem list_pagination_count_witness :
    ∃ resp', list Organizations orgStore1 3 2 "CREATED_AT_ASC" [] false [] = .ok resp' ∧
      resp'.count = (BaseDaoListResponse.mk [orgRow1] 1).count ∧
      resp'.items.length ≤ (2 : Int).toNat :=
  (list_pagination_count Organizations orgStore1 0 1 "CREATED_AT_ASC" [] false []
    ⟨[orgRow1], 1⟩ rfl).2.2 3 2 (by decide) (by decide) (by decide)

/-! ## C6: NotFound on mutating a nonexistent id -/

/-- **C6 (confirmed)**: against an id matching no record, a non-empty
`update` and a fully-argumented `soft_delete` fail with NotFoundError
(raising before any write, so the store is untouched), while `update` with
an empty mapping returns without error and without mutation. -/
theorem mutate_not_found (m : ModelClass) (store : List Row) (id : Option Value)
    (now : Nat) (kwargs : Kwargs) (ub ua : Option Value)
    (hmiss : ∀ r ∈ store, sqlEqOpt (rowGet r (getIdField m)) id = false)
    (hk : kwargs ≠ [])
    (hid : pyTruthy id = true) (hub : pyTruthy ub = true) (hua : pyTruthy ua = true) :
    update m store id now kwargs = .error (.notFound m.name) ∧
    soft_delete m store id ub ua = .error (.notFound m.name) ∧
    update m store id now [] = .ok store := by
  have hget : getOne m store id = .ok none := by
    unfold getOne
    have hnil : store.filter (fun r => sqlEqOpt (rowGet r (getIdField m)) id) = [] :=
      List.filter_eq_nil.mpr (fun r hr => by rw [hmiss r hr]; exact Bool.false_ne_true)
    rw [hnil]
  refine ⟨?_, ?_, rfl⟩
  · have hne : ¬(kwargs.isEmpty = true) := by
      cases kwargs
      · exact absurd rfl hk
      · exact Bool.false_ne_true
    unfold update
    rw [if_neg hne, hget]
  · unfold soft_delete
    rw [if_neg (by rw [hid]; simp), if_neg (by rw [hub]; simp),
      if_neg (by rw [hua]; simp), hget]

/-- Witness for `mutate_not_found` against the one-record store and an
absent id. -/
theorem mutate_not_found_witness :
    update Organizations orgStore1 (some (.str "zz")) 7
      [("organization_name", some (.str "B"))] = .error (.notFound Organizations.name) ∧
    soft_delete Organizations orgStore1 (some (.str "zz")) (some (.str "u"))
      (some (.time 3)) = .error (.notFound Organizations.name) ∧
    update Organizations orgStore1 (some (.str "zz")) 7 [] = .ok orgStore1 :=
  mutate_not_found Organizations orgStore1 (some (.str "zz")) 7
    [("organization_name", some (.str "B"))] (some (.str "u")) (some (.time 3))
    (by intro r hr; simp only [orgStore1, List.mem_singleton] at hr; rw [hr]; rfl)
    (List.cons_ne_nil _ _) rfl rfl rfl

/-! ## C9: create synchronises the audit columns -/

theorem rowGet_mkRowAux (cols : List Column) (kwargs : Kwargs) (f : String)
    (hcol : f ∈ cols.map Column.name) (hk : kwargsHasKey kwargs f = true) :
    kwargsGet (cols.map (fun c => (c.name,
      if kwargsHasKey kwargs c.name then kwargsGet kwargs c.name else c.default?))) f =
      kwargsGet kwargs f := by
  induction cols with
  | nil => simp at hcol
  | cons c rest ih =>
    simp only [List.map_cons, List.mem_cons] at hcol
    simp only [List.map_cons, kwargsGet]
    by_cases hc : (c.name == f) = true
    · rw [if_pos hc]
      have hcf : c.name = f := by simpa using hc
      rw [hcf, if_pos hk]
    · rw [if_neg hc]
      rcases hcol with heq | hmem
      · exact absurd (by simpa using heq.symm : (c.name == f) = true) hc
      · exact ih hmem

theorem rowGet_mkRow (m : ModelClass) (kwargs : Kwargs) (f : String)
    (hcol : f ∈ m.columns.map Column.name) (hk : kwargsHasKey kwargs f = true) :
    rowGet (mkRow m kwargs) f = kwargsGet kwargs f :=
  rowGet_mkRowAux m.columns kwargs f hcol hk

/-- **C9 (confirmed)**: every record persisted by a successful `create`
satisfies `updated_by = created_by` and `updated_at = created_at` — both
equal to the supplied `created_by`/`created_at` values — even when the
caller supplied different `updated_by`/`updated_at`, because `create`
overwrites those two keys before validation and insertion. -/
theorem create_audit_sync (m : ModelClass) (store store' : List Row) (kwargs : Kwargs)
    (hub : "updated_by" ∈ m.columns.map Column.name)
    (hua : "updated_at" ∈ m.columns.map Column.name)
    (hcb : "created_by" ∈ nonNullableColumns m)
    (hca : "created_at" ∈ nonNullableColumns m)
    (h : create m store kwargs = .ok store') :
    ∃ row, store' = store ++ [row] ∧
      rowGet row "updated_by" = rowGet row "created_by" ∧
      rowGet row "updated_at" = rowGet row "created_at" ∧
      rowGet row "updated_by" = kwargsGet kwargs "created_by" ∧
      rowGet row "updated_at" = kwargsGet kwargs "created_at" := by
  set k1 := kwargsSet kwargs "updated_by" (kwargsGet kwargs "created_by") with hk1
  set k2 := kwargsSet k1 "updated_at" (kwargsGet k1 "created_at") with hk2
  have hcr : create m store kwargs =
      (match verify_null_kwargs m k2 with
       | .error e => .error e
       | .ok _ =>
         match verify_all_non_nullable_fields_defined m k2 with
         | .error e => .error e
         | .ok _ =>
           if k2.all (fun p => m.columns.any (fun c => c.name == p.1)) then
             if rowIntegrity m (mkRow m k2) then .ok (store ++ [mkRow m k2])
             else .error .integrityError
           else .error .typeError) := rfl
  rw [hcr] at h
  cases hvn : verify_null_kwargs m k2 with
  | error e =>
    rw [hvn] at h
    cases h
  | ok u =>
    cases u
    rw [hvn] at h
    cases hva : verify_all_non_nullable_fields_defined m k2 with
    | error e =>
      rw [hva] at h
      cases h
    | ok u2 =>
      cases u2
      rw [hva] at h
      by_cases hall : (k2.all (fun p => m.columns.any (fun c => c.name == p.1))) = true
      · rw [if_pos hall] at h
        by_cases hint : rowIntegrity m (mkRow m k2) = true
        · rw [if_pos hint] at h
          have hstore : store' = store ++ [mkRow m k2] := (Except.ok.inj h).symm
          have hkub : kwargsHasKey k2 "updated_by" = true := by
            rw [hk2, kwargsHasKey_kwargsSet, hk1, kwargsHasKey_kwargsSet]
            simp
          have hkua : kwargsHasKey k2 "updated_at" = true := by
            rw [hk2, kwargsHasKey_kwargsSet]
            simp
          have hpresent : ∀ f ∈ nonNullableColumns m, kwargsHasKey k2 f = true := by
            intro f hf
            by_contra hc
            obtain ⟨g, hg⟩ := (verifyAllDefinedAux_error_iff m.name k2
              (nonNullableColumns m)).mpr ⟨f, hf, by simpa using hc⟩
            rw [show verify_all_non_nullable_fields_defined m k2 =
              verifyAllDefinedAux m.name k2 (nonNullableColumns m) from rfl, hg] at hva
            cases hva
          have hsub : ∀ f, f ∈ nonNullableColumns m → f ∈ m.columns.map Column.name := by
            intro f hf
            obtain ⟨c, hc1, hc2⟩ := List.mem_map.mp hf
            exact List.mem_map.mpr ⟨c, (List.mem_filter.mp hc1).1, hc2⟩
          have hgub : kwargsGet k2 "updated_by" = kwargsGet kwargs "created_by" := by
            rw [hk2, kwargsGet_kwargsSet_ne _ _ _ _ (by decide), hk1, kwargsGet_kwargsSet_self]
          have hgua : kwargsGet k2 "updated_at" = kwargsGet kwargs "created_at" := by
            rw [hk2, kwargsGet_kwargsSet_self, hk1,
              kwargsGet_kwargsSet_ne _ _ _ _ (by decide)]
          have hgcb : kwargsGet k2 "created_by" = kwargsGet kwargs "created_by" := by
            rw [hk2, kwargsGet_kwargsSet_ne _ _ _ _ (by decide), hk1,
              kwargsGet_kwargsSet_ne _ _ _ _ (by decide)]
          have hgca : kwargsGet k2 "created_at" = kwargsGet kwargs "created_at" := by
            rw [hk2, kwargsGet_kwargsSet_ne _ _ _ _ (by decide), hk1,
              kwargsGet_kwargsSet_ne _ _ _ _ (by decide)]
          refine ⟨mkRow m k2, hstore, ?_, ?_, ?_, ?_⟩
          · rw [rowGet_mkRow m k2 _ hub hkub,
              rowGet_mkRow m k2 _ (hsub _ hcb) (hpresent _ hcb), hgub, hgcb]
          · rw [rowGet_mkRow m k2 _ hua hkua,
              rowGet_mkRow m k2 _ (hsub _ hca) (hpresent _ hca), hgua, hgca]
          · rw [rowGet_mkRow m k2 _ hub hkub, hgub]
          · rw [rowGet_mkRow m k2 _ hua hkua, hgua]
        · rw [if_neg hint] at h
          cases h
      · rw [if_neg hall] at h
        cases h

/-- Witness for `create_audit_sync`: the caller explicitly supplies a
different `updated_by`, yet the persisted row carries `created_by`'s
value. -/
theorem create_audit_sync_witness :
    ∃ row, ([orgRow1] : List Row) = [] ++ [row] ∧
      rowGet row "updated_by" = rowGet row "created_by" ∧
      rowGet row "updated_at" = rowGet row "created_at" ∧
      rowGet row "updated_by" =
        kwargsGet (orgCreateKwargs ++ [("updated_by", some (.str "intruder"))]) "created_by" ∧
      rowGet row "updated_at" =
        kwargsGet (orgCreateKwargs ++ [("updated_by", some (.str "intruder"))]) "created_at" :=
  create_audit_sync Organizations [] [orgRow1]
    (orgCreateKwargs ++ [("updated_by", some (.str "intruder"))])
    (by decide) (by decide) (by decide) (by decide) (by rfl)

/-! ## C4: soft-delete visibility -/

theorem insertLe_perm (le : Row → Row → Bool) (x : Row) (l : List Row) :
    (insertLe le x l).Perm (x :: l) := by
  induction l with
  | nil => exact List.Perm.refl _
  | cons y ys ih =>
    simp only [insertLe]
    by_cases h : le x y = true
    · rw [if_pos h]
    · rw [if_neg h]
      exact (ih.cons y).trans (List.Perm.swap x y ys)

theorem sortLe_perm (le : Row → Row → Bool) (l : List Row) : (sortLe le l).Perm l := by
  induction l with
  | nil => exact List.Perm.refl _
  | cons x xs ih => exact (insertLe_perm le x (sortLe le xs)).trans (ih.cons x)

theorem getOne_ok_some_iff (m : ModelClass) (store : List Row) (id : Option Value)
    (inst : Row) :
    getOne m store id = .ok (some inst) ↔
      store.filter (fun r => sqlEqOpt (rowGet r (getIdField m)) id) = [inst] := by
  unfold getOne
  rcases hf : store.filter (fun r => sqlEqOpt (rowGet r (getIdField m)) id) with
    - | ⟨a, - | ⟨b, t⟩⟩
  · constructor
    · intro hh
      cases hh
    · intro hh
      cases hh
  · constructor
    · intro hh
      have h2 := Except.ok.inj hh
      rw [Option.some.inj h2]
    · intro hh
      rw [(List.cons.inj hh).1]
  · constructor
    · intro hh
      cases hh
    · intro hh
      have h1 := List.cons.inj hh
      cases h1.2

theorem soft_delete_found_eq (m : ModelClass) (store : List Row)
    (id ub ua : Option Value) (inst : Row)
    (hid : pyTruthy id = true) (hub : pyTruthy ub = true) (hua : pyTruthy ua = true)
    (hinst : getOne m store id = .ok (some inst)) :
    soft_delete m store id ub ua =
      (if rowIntegrity m (rowSet (rowSet (rowSet inst "updated_by" ub) "updated_at" ua)
          "is_deleted" (some (.bool true))) then
        .ok (store.map (fun r =>
          if sqlEqOpt (rowGet r (getIdField m)) id then
            rowSet (rowSet (rowSet inst "updated_by" ub) "updated_at" ua)
              "is_deleted" (some (.bool true))
          else r))
      else .error .integrityError) := by
  unfold soft_delete
  rw [if_neg (by rw [hid]; simp), if_neg (by rw [hub]; simp),
    if_neg (by rw [hua]; simp), hinst]

theorem soft_delete_truthy_of_ok (m : ModelClass) (store store' : List Row)
    (id ub ua : Option Value) (h : soft_delete m store id ub ua = .ok store') :
    pyTruthy id = true ∧ pyTruthy ub = true ∧ pyTruthy ua = true := by
  unfold soft_delete at h
  by_cases h1 : (!pyTruthy id) = true
  · rw [if_pos h1] at h
    cases h
  · rw [if_neg h1] at h
    by_cases h2 : (!pyTruthy ub) = true
    · rw [if_pos h2] at h
      cases h
    · rw [if_neg h2] at h
      by_cases h3 : (!pyTruthy ua) = true
      · rw [if_pos h3] at h
        cases h
      · exact ⟨by simpa using h1, by simpa using h2, by simpa using h3⟩

theorem soft_delete_ok_elim {m : ModelClass} {store store' : List Row}
    {id ub ua : Option Value} (h : soft_delete m store id ub ua = .ok store') :
    pyTruthy id = true ∧ pyTruthy ub = true ∧ pyTruthy ua = true ∧
    ∃ inst,
      store.filter (fun r => sqlEqOpt (rowGet r (getIdField m)) id) = [inst] ∧
      store' = store.map (fun r =>
        if sqlEqOpt (rowGet r (getIdField m)) id then
          rowSet (rowSet (rowSet inst "updated_by" ub) "updated_at" ua)
            "is_deleted" (some (.bool true))
        else r) := by
  obtain ⟨h1, h2, h3⟩ := soft_delete_truthy_of_ok m store store' id ub ua h
  refine ⟨h1, h2, h3, ?_⟩
  cases hg : getOne m store id with
  | error e =>
    exfalso
    have hframe : soft_delete m store id ub ua = .error e := by
      unfold soft_delete
      rw [if_neg (by rw [h1]; simp), if_neg (by rw [h2]; simp),
        if_neg (by rw [h3]; simp), hg]
    rw [hframe] at h
    cases h
  | ok o =>
    cases o with
    | none =>
      exfalso
      have hframe : soft_delete m store id ub ua = .error (.notFound m.name) := by
        unfold soft_delete
        rw [if_neg (by rw [h1]; simp), if_neg (by rw [h2]; simp),
          if_neg (by rw [h3]; simp), hg]
      rw [hframe] at h
      cases h
    | some inst =>
      rw [soft_delete_found_eq m store id ub ua inst h1 h2 h3 hg] at h
      by_cases hint : rowIntegrity m (rowSet (rowSet (rowSet inst "updated_by" ub)
          "updated_at" ua) "is_deleted" (some (.bool true))) = true
      · rw [if_pos hint] at h
        exact ⟨inst, (getOne_ok_some_iff m store id inst).mp hg, (Except.ok.inj h).symm⟩
      · rw [if_neg hint] at h
        cases h

theorem filter_map_replace (store : List Row) (pred : Row → Bool) (new : Row)
    (hnew : pred new = true) :
    (store.map (fun r => if pred r then new else r)).filter pred =
      (store.filter pred).map (fun _ => new) := by
  induction store with
  | nil => rfl
  | cons r rest ih =>
    simp only [List.map_cons]
    by_cases h : pred r = true
    · rw [if_pos h, List.filter_cons_of_pos hnew, List.filter_cons_of_pos h,
        List.map_cons, ih]
    · rw [if_neg h, List.filter_cons_of_neg h, List.filter_cons_of_neg h, ih]

theorem mem_visibleRows_not_deleted (m : ModelClass) (store : List Row)
    (pk : List Value) (r : Row) (h : r ∈ visibleRows m store pk false) :
    r ∈ store ∧ sqlEqOpt (rowGet r "is_deleted") (some (.bool false)) = true := by
  simp only [visibleRows] at h
  have hq1 : r ∈ store.filter (fun r => sqlEqOpt (rowGet r "is_deleted")
      (some (.bool false))) := by
    by_cases hpk : (pk.isEmpty = true)
    · rw [if_pos hpk, if_neg Bool.false_ne_true] at h
      exact h
    · rw [if_neg hpk, if_neg Bool.false_ne_true] at h
      exact List.mem_of_mem_filter h
  exact ⟨List.mem_of_mem_filter hq1, (List.mem_filter.mp hq1).2⟩

theorem pk_singleton_pred (idv : Value) (x : Option Value) :
    (match x with
     | some v => List.contains [idv] v
     | none => false) = sqlEqOpt x (some idv) := by
  cases x with
  | none => rfl
  | some v =>
    show List.contains [idv] v = (v == idv)
    simp [List.contains]

theorem visibleRows_include_pk (m : ModelClass) (store : List Row) (pk : List Value)
    (hpk : pk ≠ []) :
    visibleRows m store pk true =
      store.filter (fun r =>
        match rowGet r (getIdField m) with
        | some v => pk.contains v
        | none => false) := by
  have h1 : pk.isEmpty = false := by
    cases pk
    · exact absurd rfl hpk
    · rfl
  simp only [visibleRows, h1, Bool.false_eq_true, if_false, if_true]

theorem rowGet_rowSet_self (r : Row) (f : String) (v : Option Value)
    (h : kwargsHasKey r f = true) : rowGet (rowSet r f v) f = v :=
  kwargsGet_map_replace_self r f v h

theorem rowGet_rowSet_ne (r : Row) (f : String) (v : Option Value) (g : String)
    (h : g ≠ f) : rowGet (rowSet r f v) g = rowGet r g :=
  kwargsGet_map_replace_ne r f v g h

theorem kwargsHasKey_rowSet (r : Row) (f : String) (v : Option Value) (g : String) :
    kwargsHasKey (rowSet r f v) g = kwargsHasKey r g :=
  kwargsHasKey_map_replace r f v g

/-- **C4 (confirmed)**: after a successful `soft_delete`, the matching
record carries the supplied `updated_by`/`updated_at` and
`is_deleted = true`; every subsequent `list` with `include_deleted=false`
(any page, size, ordering, pk set and filters) returns no item with that
id, while the canonical `include_deleted=true` lookup by that id returns
exactly the record. -/
theorem soft_delete_visibility (m : ModelClass) (store store' : List Row)
    (id ub ua : Option Value)
    (hwf : ∀ r ∈ store, RowWF m r)
    (hid1 : getIdField m ≠ "updated_by") (hid2 : getIdField m ≠ "updated_at")
    (hid3 : getIdField m ≠ "is_deleted")
    (hubc : "updated_by" ∈ m.columns.map Column.name)
    (huac : "updated_at" ∈ m.columns.map Column.name)
    (hdelc : "is_deleted" ∈ m.columns.map Column.name)
    (hsd : soft_delete m store id ub ua = .ok store') :
    (∀ r ∈ store', sqlEqOpt (rowGet r (getIdField m)) id = true →
      rowGet r "updated_by" = ub ∧ rowGet r "updated_at" = ua ∧
      rowGet r "is_deleted" = some (.bool true)) ∧
    (∀ (page size : Int) (ob : String) (pk : List Value) (ff : Kwargs)
        (resp : BaseDaoListResponse),
      list m store' page size ob pk false ff = .ok resp →
      ∀ r ∈ resp.items, sqlEqOpt (rowGet r (getIdField m)) id = false) ∧
    (∃ row, sqlEqOpt (rowGet row (getIdField m)) id = true ∧
      list m store' 0 100 "CREATED_AT_ASC" id.toList true [] = .ok ⟨[row], 1⟩) := by
  obtain ⟨hidT, hubT, huaT, inst, hfl, hstore⟩ := soft_delete_ok_elim hsd
  have hinstfl : inst ∈ store.filter (fun r => sqlEqOpt (rowGet r (getIdField m)) id) := by
    rw [hfl]
    exact List.mem_singleton_self _
  have hinstmem : inst ∈ store := List.mem_of_mem_filter hinstfl
  have hinstpred : sqlEqOpt (rowGet inst (getIdField m)) id = true :=
    (List.mem_filter.mp hinstfl).2
  have hinstwf : RowWF m inst := hwf inst hinstmem
  have hkey : ∀ f, f ∈ m.columns.map Column.name → kwargsHasKey inst f = true := by
    intro f hf
    rw [kwargsHasKey_iff_mem_keys]
    rw [RowWF] at hinstwf
    rw [hinstwf]
    exact hf
  have hnewub : rowGet (rowSet (rowSet (rowSet inst "updated_by" ub) "updated_at" ua)
      "is_deleted" (some (.bool true))) "updated_by" = ub := by
    rw [rowGet_rowSet_ne _ _ _ _ (by decide), rowGet_rowSet_ne _ _ _ _ (by decide),
      rowGet_rowSet_self _ _ _ (hkey _ hubc)]
  have hnewua : rowGet (rowSet (rowSet (rowSet inst "updated_by" ub) "updated_at" ua)
      "is_deleted" (some (.bool true))) "updated_at" = ua := by
    rw [rowGet_rowSet_ne _ _ _ _ (by decide),
      rowGet_rowSet_self _ _ _ (by rw [kwargsHasKey_rowSet]; exact hkey _ huac)]
  have hnewdel : rowGet (rowSet (rowSet (rowSet inst "updated_by" ub) "updated_at" ua)
      "is_deleted" (some (.bool true))) "is_deleted" = some (.bool true) := by
    rw [rowGet_rowSet_self _ _ _
      (by rw [kwargsHasKey_rowSet, kwargsHasKey_rowSet]; exact hkey _ hdelc)]
  have hnewpred : sqlEqOpt (rowGet (rowSet (rowSet (rowSet inst "updated_by" ub)
      "updated_at" ua) "is_deleted" (some (.bool true))) (getIdField m)) id = true := by
    rw [rowGet_rowSet_ne _ _ _ _ hid3, rowGet_rowSet_ne _ _ _ _ hid2,
      rowGet_rowSet_ne _ _ _ _ hid1]
    exact hinstpred
  have hsdfilter : store'.filter (fun r => sqlEqOpt (rowGet r (getIdField m)) id) =
      [rowSet (rowSet (rowSet inst "updated_by" ub) "updated_at" ua)
        "is_deleted" (some (.bool true))] := by
    rw [hstore,
      filter_map_replace store (fun r => sqlEqOpt (rowGet r (getIdField m)) id) _ hnewpred,
      hfl]
    rfl
  have hmem_store' : ∀ r ∈ store', sqlEqOpt (rowGet r (getIdField m)) id = true →
      r = rowSet (rowSet (rowSet inst "updated_by" ub) "updated_at" ua)
        "is_deleted" (some (.bool true)) := by
    intro r hr hpr
    have hmf : r ∈ store'.filter (fun r => sqlEqOpt (rowGet r (getIdField m)) id) :=
      List.mem_filter.mpr ⟨hr, hpr⟩
    rw [hsdfilter] at hmf
    exact List.mem_singleton.mp hmf
  refine ⟨?_, ?_, ?_⟩
  · intro r hr hpr
    rw [hmem_store' r hr hpr]
    exact ⟨hnewub, hnewua, hnewdel⟩
  · intro page size ob pk ff resp hlist r hr
    obtain ⟨-, -, -, q3, spec, h3, ho, hresp⟩ := list_ok_elim hlist
    have hr3 : r ∈ q3 := by
      rw [hresp] at hr
      exact ((sortLe_perm (orderLe spec) q3).mem_iff).mp
        (List.mem_of_mem_drop (List.mem_of_mem_take hr))
    have hrvis : r ∈ visibleRows m store' pk false := by
      rw [applyFilterFields_ok_filter m ff _ _ h3] at hr3
      exact List.mem_of_mem_filter hr3
    obtain ⟨hrstore, hrdel⟩ := mem_visibleRows_not_deleted m store' pk r hrvis
    cases hpr : sqlEqOpt (rowGet r (getIdField m)) id with
    | false => rfl
    | true =>
      exfalso
      rw [hmem_store' r hrstore hpr, hnewdel] at hrdel
      exact absurd hrdel (by decide)
  · refine ⟨rowSet (rowSet (rowSet inst "updated_by" ub) "updated_at" ua)
      "is_deleted" (some (.bool true)), hnewpred, ?_⟩
    cases id with
    | none => simp [pyTruthy] at hidT
    | some idv =>
      have happ : applyFilterFields m (visibleRows m store' (some idv).toList true) [] =
          .ok (store'.filter (fun r => sqlEqOpt (rowGet r (getIdField m)) (some idv))) := by
        simp only [applyFilterFields]
        rw [visibleRows_include_pk m store' _ (by simp)]
        exact congrArg Except.ok
          (List.filter_congr (fun r _ => pk_singleton_pred idv (rowGet r (getIdField m))))
      have hfinal := list_ok_intro m store' 0 100 "CREATED_AT_ASC" ((some idv).toList) true []
        (store'.filter (fun r => sqlEqOpt (rowGet r (getIdField m)) (some idv)))
        ⟨"created_at", true⟩ (by norm_num) (by norm_num) (by norm_num) happ rfl
      rw [hsdfilter] at hfinal
      exact hfinal

/-- Witness for `soft_delete_visibility` on the concrete one-record store:
the soft-deleted record is returned (alone) by the
`include_deleted=true` id lookup. -/
theorem soft_delete_visibility_witness :
    ∃ row, sqlEqOpt (rowGet row (getIdField Organizations)) (some (Value.str "o1")) = true ∧
      list Organizations orgStore1Deleted 0 100 "CREATED_AT_ASC"
        (some (Value.str "o1")).toList true [] = .ok ⟨[row], 1⟩ :=
  (soft_delete_visibility Organizations orgStore1 orgStore1Deleted
    (some (.str "o1")) (some (.str "b@x.com")) (some (.time 7))
    (by intro r hr; simp only [orgStore1, List.mem_singleton] at hr; rw [hr]; rfl)
    (by decide) (by decide) (by decide) (by decide) (by decide) (by decide) (by rfl)).2.2

end OMS
